import Mathlib

/-!
Verification of the image-processor pipeline (`src/main.go`).

The Go program processes a batch of JPEG files twice: once sequentially
(`runSequential`) and once through a three-stage channel pipeline
(`runParallelPipeline`) with one load goroutine, `numWorkers` transform
goroutines and one save goroutine.  This file gives a shallow embedding of

* the pixel transforms `toGrayscale` / `toSepia` (functional form and an
  explicit heap/allocation form mirroring `image.NewRGBA` + `SetRGBA`);
* the per-stage loop bodies `loadWorker`, `processWorker`, `saveWorker`
  and the sequential runner;
* `main`'s console output and exit behaviour;
* a small-step interleaving semantics of `runParallelPipeline` with
  bounded FIFO queues (Go channels), over which the shutdown/drain
  ordering, absence of send-on-closed-channel faults, termination and
  equality with the sequential runner's outputs are proved.

Modelling conventions:
* Machine integers are modelled as `Nat`; `uint8(e)` conversions are kept
  only where the operand can exceed 255, with lemmas showing the values
  involved stay below 256.
* The `float64` luminance/sepia arithmetic is modelled by exact rational
  arithmetic (integer numerators, `Nat` floor division).  No claim below
  depends on the rounding of the last bit, only on the shape of the
  computation (which channels receive which value, clamping at 255).
* File-system and codec effects (`os.Open`+`image.Decode`, `os.Create`,
  `jpeg.Encode`) are external collaborators of this repository; they are
  modelled as explicit function parameters, deterministic per path, so
  that both runners face the same file system.
* Decoded images are modelled as 8-bit RGBA buffers; `Color.RGBA()`
  returns the 16-bit alpha-premultiplied values `v * 0x101 = v * 257`
  exactly as Go's `color.RGBA` does.
-/

/-- An 8-bit RGBA pixel as stored in Go's `image.RGBA` pixel buffer. -/
structure Pixel where
  r : Nat
  g : Nat
  b : Nat
  a : Nat
deriving DecidableEq

/-- The zero pixel; `image.NewRGBA` zero-initialises its buffer, and Go's
`At` returns the zero color outside the image bounds. -/
def zeroPix : Pixel := ⟨0, 0, 0, 0⟩

/-- An in-memory image: the rectangle `Bounds()` (`Min = (minX, minY)`,
width `w`, height `h`) together with a row-major pixel buffer, exactly the
layout of Go's `image.RGBA`. -/
structure GoImage where
  minX : Int
  minY : Int
  w : Nat
  h : Nat
  pix : List Pixel
deriving DecidableEq

/-- The point `(x, y)` lies inside the bounds of `img`
(`Min.X <= x < Max.X` and `Min.Y <= y < Max.Y`). -/
def inBounds (img : GoImage) (x y : Int) : Prop :=
  img.minX ≤ x ∧ x < img.minX + img.w ∧ img.minY ≤ y ∧ y < img.minY + img.h

instance (img : GoImage) (x y : Int) : Decidable (inBounds img x y) := by
  unfold inBounds; infer_instance

/-- Row-major index of `(x, y)` in the pixel buffer, as in `image.RGBA.PixOffset`. -/
def linIndex (img : GoImage) (x y : Int) : Nat :=
  (y - img.minY).toNat * img.w + (x - img.minX).toNat

/-- Model of `img.At(x, y)`: the stored pixel inside bounds, the zero color
outside (as for Go's `image.RGBA.At`). -/
def imgAt (img : GoImage) (x y : Int) : Pixel :=
  if inBounds img x y then img.pix.getD (linIndex img x y) zeroPix else zeroPix

/-- Model of `Color.RGBA()` on an 8-bit RGBA color: each channel is scaled
to 16 bits as `v | v<<8 = v * 257`. -/
def rgba64 (p : Pixel) : Nat × Nat × Nat × Nat :=
  (p.r * 257, p.g * 257, p.b * 257, p.a * 257)

/-- The luminance byte computed in `toGrayscale`:
`uint8((0.299*r + 0.587*g + 0.114*b) / 256)` on 16-bit channel values,
modelled by the exact rational floor `(299*r + 587*g + 114*b) / 256000`. -/
def grayLevel (r g b : Nat) : Nat :=
  (299 * r + 587 * g + 114 * b) / 256000

/-- Per-pixel body of the `toGrayscale` loops: read the original color,
compute the luminance once, store it in all three color channels, and keep
`uint8(a / 256)` as alpha. -/
def grayPix (p : Pixel) : Pixel :=
  let q := rgba64 p
  let gray := grayLevel q.1 q.2.1 q.2.2.1
  ⟨gray, gray, gray, q.2.2.2 / 256⟩

/-- X coordinate of the `i`-th pixel written by the row-major double loop
`for y ...; for x ...` (linearised as `i = (y-minY)*w + (x-minX)`). -/
def coordX (img : GoImage) (i : Nat) : Int :=
  img.minX + (i % img.w : Nat)

/-- Y coordinate of the `i`-th pixel written by the row-major double loop. -/
def coordY (img : GoImage) (i : Nat) : Int :=
  img.minY + (i / img.w : Nat)

/-- Functional model of `toGrayscale`: allocate a fresh RGBA image over the
same bounds and fill every pixel with `grayPix` of the corresponding input
pixel. -/
def toGrayscale (img : GoImage) : GoImage :=
  { minX := img.minX, minY := img.minY, w := img.w, h := img.h,
    pix := (List.range (img.w * img.h)).map fun i =>
      grayPix (imgAt img (coordX img i) (coordY img i)) }

/-- Per-pixel body of the `toSepia` loops: convert to `color.RGBA` (a
no-op on our 8-bit model), recover the 8-bit channels as `uint8(v/257)`,
apply the sepia matrix with `float64` arithmetic (modelled exactly), clamp
each channel at 255 with `min`, and keep `uint8(a / 256)`. -/
def sepiaPix (p : Pixel) : Pixel :=
  let q := rgba64 p
  let r8 := q.1 / 257
  let g8 := q.2.1 / 257
  let b8 := q.2.2.1 / 257
  ⟨min 255 ((393 * r8 + 769 * g8 + 189 * b8) / 1000),
   min 255 ((349 * r8 + 686 * g8 + 168 * b8) / 1000),
   min 255 ((272 * r8 + 534 * g8 + 131 * b8) / 1000),
   q.2.2.2 / 256⟩

/-- Functional model of `toSepia`. -/
def toSepia (img : GoImage) : GoImage :=
  { minX := img.minX, minY := img.minY, w := img.w, h := img.h,
    pix := (List.range (img.w * img.h)).map fun i =>
      sepiaPix (imgAt img (coordX img i) (coordY img i)) }

/-- The transform chain a `processWorker` applies to a payload:
grayscale first, then sepia. -/
def procImg (img : GoImage) : GoImage :=
  toSepia (toGrayscale img)

/-- Scan of the characters of a path, keeping the segment after the last
slash (accumulated in reverse). -/
def baseNameChars : List Char → List Char → List Char
  | [], acc => acc.reverse
  | c :: cs, acc =>
    if c = '/' then baseNameChars cs [] else baseNameChars cs (c :: acc)

/-- Model of `filepath.Base`: the final element of the slash-separated
path (the glob pattern of this program never produces trailing
slashes). -/
def baseName (p : String) : String :=
  String.mk (baseNameChars p.data [])

/-- Output path used by `saveWorker`:
`filepath.Join("output_parallel", filepath.Base(path))`. -/
def parOut (p : String) : String :=
  "output_parallel/" ++ baseName p

/-- Output path used by `runSequential`:
`filepath.Join("output_sequential", filepath.Base(path))`. -/
def seqOut (p : String) : String :=
  "output_sequential/" ++ baseName p

/-- The unit of work flowing through the pipeline (`type ImageTask struct`). -/
structure ImageTask where
  FilePath : String
  Img : GoImage
deriving DecidableEq

/-- Body of `processWorker` on one task: apply grayscale, then sepia, and
replace the payload (`task.Img = sepiaImg`). -/
def procTask (t : ImageTask) : ImageTask :=
  { t with Img := procImg t.Img }

/-- External collaborators of the pipeline, deterministic per path:
whether `os.Open` succeeds, what `image.Decode` yields, whether
`os.Create` succeeds on an output path, and the bytes `jpeg.Encode`
produces for an image (the codec itself is outside this repository). -/
structure PipeEnv where
  openOk : String → Bool
  decodeRes : String → Option GoImage
  createOk : String → Bool
  encode : GoImage → List Nat

/-- Composite of the two failure points in the load step: `os.Open`
followed by `image.Decode`; `none` when either fails. -/
def loadFile (env : PipeEnv) (p : String) : Option GoImage :=
  if env.openOk p then env.decodeRes p else none

/-- One console/log line of the program.  Constructors carry exactly the
formatted values; the fixed Ukrainian text of each `Printf` is irrelevant
to the claims and is identified by the constructor name:
`cpuLine` = "Використовується ядер CPU: %d",
`noImagesLine` = the empty-directory notice,
`foundLine` = "Знайдено файлів для обробки: %d",
`sepLine` = the dashed separator,
`seqHeader`/`seqElapsed` and `parHeader`/`parElapsed` = the mode banners
and elapsed-time lines (durations carry no counts),
`doneLine` = the final success message, `fatalLine` = `log.Fatal` output,
and the four error lines = the `log.Printf` calls of the stages. -/
inductive OutLine where
  | cpuLine (n : Nat)
  | noImagesLine
  | foundLine (n : Nat)
  | sepLine
  | seqHeader
  | seqElapsed
  | parHeader (workers : Nat)
  | parElapsed
  | doneLine
  | fatalLine
  | openErrLine (path : String)
  | decodeErrLine (path : String)
  | createErrLine (path : String)
  | encodeErrLine (path : String)
deriving DecidableEq

/-- The numeric values appearing in the program's output: only the CPU
count, the discovered-file count and the worker count are ever printed. -/
def printedNumbers (out : List OutLine) : List Nat :=
  out.filterMap fun l =>
    match l with
    | .cpuLine n => some n
    | .foundLine n => some n
    | .parHeader n => some n
    | _ => none

/-- Loop body of `loadWorker` over a list of received paths: on `os.Open`
failure log and `continue`; on `image.Decode` failure log and `continue`;
on success forward an `ImageTask` with the decoded payload.  Returns the
forwarded tasks (in send order) and the emitted log lines. -/
def loadWorkerGo (env : PipeEnv) : List String → List ImageTask × List OutLine
  | [] => ([], [])
  | p :: rest =>
    let r := loadWorkerGo env rest
    if env.openOk p = false then (r.1, .openErrLine p :: r.2)
    else
      match env.decodeRes p with
      | none => (r.1, .decodeErrLine p :: r.2)
      | some img => (⟨p, img⟩ :: r.1, r.2)

/-- A Go task whose payload is a possibly-nil `image.Image` interface
value; `processWorker` performs no nil check before calling the
transforms. -/
structure GTask where
  FilePath : String
  Img : Option GoImage
deriving DecidableEq

/-- A Go runtime panic.  An unrecovered panic in any goroutine terminates
the whole process. -/
inductive GoPanic where
  | nilDeref
deriving DecidableEq

/-- `toGrayscale` on a possibly-nil payload: `img.Bounds()` on a nil
interface value dereferences nil and panics; otherwise the pure transform
runs. -/
def toGrayscaleGo : Option GoImage → Except GoPanic GoImage
  | none => .error .nilDeref
  | some img => .ok (toGrayscale img)

/-- `toSepia` on a possibly-nil payload, as `toGrayscaleGo`. -/
def toSepiaGo : Option GoImage → Except GoPanic GoImage
  | none => .error .nilDeref
  | some img => .ok (toSepia img)

/-- Loop body of `processWorker` over the tasks it receives, exactly as in
the source: `grayImg := toGrayscale(task.Img); sepiaImg := toSepia(grayImg);
task.Img = sepiaImg; resultsChan <- task`.  There is no error branch: the
only way a transform can fail is a panic, which aborts the whole loop (and
process); a panic is returned as `Except.error`. -/
def processWorkerGo : List GTask → Except GoPanic (List GTask)
  | [] => .ok []
  | t :: rest =>
    match toGrayscaleGo t.Img with
    | .error e => .error e
    | .ok grayImg =>
      match toSepiaGo (some grayImg) with
      | .error e => .error e
      | .ok sepiaImg =>
        match processWorkerGo rest with
        | .error e => .error e
        | .ok out => .ok ({ t with Img := some sepiaImg } :: out)

/-- External collaborators of the save step in isolation: `os.Create`
success per output path and a fallible `jpeg.Encode`. -/
structure SaveEnv where
  createOk : String → Bool
  encodeE : GoImage → Except String (List Nat)

/-- Loop body of `saveWorker` over the tasks it receives: on `os.Create`
failure log and `continue`; on `jpeg.Encode` failure log (and fall through
to the next item); on success the encoded bytes are written to the output
path.  Returns the successfully written files and the emitted log lines. -/
def saveWorkerGo (env : SaveEnv) : List ImageTask → List (String × List Nat) × List OutLine
  | [] => ([], [])
  | t :: rest =>
    let out := parOut t.FilePath
    let r := saveWorkerGo env rest
    if env.createOk out = false then (r.1, .createErrLine out :: r.2)
    else
      match env.encodeE t.Img with
      | .error _ => (r.1, .encodeErrLine out :: r.2)
      | .ok bs => ((out, bs) :: r.1, r.2)

/-- The save portion of `runSequential`'s loop over transformed tasks: on
`os.Create` failure log and `continue`; the return value of
`jpeg.Encode(outFile, sepiaImg, nil)` is discarded, so an encode failure
is neither logged nor otherwise acted upon. -/
def seqSaveGo (env : SaveEnv) : List ImageTask → List (String × List Nat) × List OutLine
  | [] => ([], [])
  | t :: rest =>
    let out := seqOut t.FilePath
    let r := seqSaveGo env rest
    if env.createOk out = false then (r.1, .createErrLine out :: r.2)
    else
      match env.encodeE t.Img with
      | .error _ => (r.1, r.2)
      | .ok bs => ((out, bs) :: r.1, r.2)

/-- Result of one full run (either runner): the written output files as
`(source path, encoded bytes)` pairs, the source paths that were dropped
with a logged failure, and the emitted log lines. -/
structure RunOut where
  saved : List (String × List Nat)
  failures : List String
  logs : List OutLine
deriving DecidableEq

/-- Model of `runSequential`: for each path in order, open + decode
(log-and-continue on failure), `toGrayscale` then `toSepia`, `os.Create`
on `output_sequential/<base>` (log-and-continue on failure), then
`jpeg.Encode` with the error discarded.  Saved entries are keyed by the
source path; the written file name is `seqOut` of it. -/
def runSequentialGo (env : PipeEnv) : List String → RunOut
  | [] => ⟨[], [], []⟩
  | p :: rest =>
    let r := runSequentialGo env rest
    if env.openOk p = false then
      ⟨r.saved, p :: r.failures, .openErrLine p :: r.logs⟩
    else
      match env.decodeRes p with
      | none => ⟨r.saved, p :: r.failures, .decodeErrLine p :: r.logs⟩
      | some img =>
        if env.createOk (seqOut p) = false then
          ⟨r.saved, p :: r.failures, .createErrLine (seqOut p) :: r.logs⟩
        else
          ⟨(p, env.encode (procImg img)) :: r.saved, r.failures, r.logs⟩

/-- Canonical (load-all, transform-all, save-all) schedule of the parallel
pipeline, used to model `main`'s console output deterministically.  The
small-step semantics below shows every schedule produces the same saved
set and failure counts; log-line order is the only schedule-dependent
observable, and no claim depends on it. -/
def runParallelDet (env : PipeEnv) : List String → RunOut
  | [] => ⟨[], [], []⟩
  | p :: rest =>
    let r := runParallelDet env rest
    if env.openOk p = false then
      ⟨r.saved, p :: r.failures, .openErrLine p :: r.logs⟩
    else
      match env.decodeRes p with
      | none => ⟨r.saved, p :: r.failures, .decodeErrLine p :: r.logs⟩
      | some img =>
        if env.createOk (parOut p) = false then
          ⟨r.saved, p :: r.failures, .createErrLine (parOut p) :: r.logs⟩
        else
          ⟨(p, env.encode (procImg img)) :: r.saved, r.failures, r.logs⟩

/-- Model of `main`: print the CPU count, enumerate `input_images/*.jpg`
(the `filepath.Glob` outcome is the `globRes` parameter); on enumeration
failure `log.Fatal` exits with code 1; otherwise print the
empty-directory notice when applicable, the found-files count, run the
sequential mode then the parallel mode (with `numWorkers = numCPU`), print
the closing banner and return exit code 0.  Result: (exit code, console
output). -/
def mainRun (numCPU : Nat) (env : PipeEnv) (globRes : Except String (List String)) :
    Nat × List OutLine :=
  let pre := [OutLine.cpuLine numCPU]
  match globRes with
  | .error _ => (1, pre ++ [.fatalLine])
  | .ok paths =>
    let note := if paths.length = 0 then [OutLine.noImagesLine] else []
    let seqR := runSequentialGo env paths
    let parR := runParallelDet env paths
    (0, pre ++ note ++ [.foundLine paths.length, .sepLine, .seqHeader]
      ++ seqR.logs ++ [.seqElapsed, .sepLine, .parHeader numCPU]
      ++ parR.logs ++ [.parElapsed, .sepLine, .doneLine])

/-- A Go buffered channel: FIFO buffer, fixed capacity, closed flag.
A send appends at the tail when `buf.length < cap` and the channel is
open; a receive takes the head; a receive on a closed empty channel ends
a `for range` loop; a send on a closed channel is a runtime fault. -/
structure Chan (α : Type) where
  buf : List α
  cap : Nat
  closed : Bool
deriving DecidableEq

/-- Program counter of the orchestrating goroutine of
`runParallelPipeline`: push the remaining paths, close `filesChan`, wait
on `wgLoad` and close `tasksChan`, wait on `wgProcess` and close
`resultsChan`, wait on `wgSave`, return. -/
inductive MainPC where
  | sending (rest : List String)
  | waitLoad
  | waitProcess
  | waitSave
  | done
deriving DecidableEq

/-- State of the single `loadWorker` goroutine: ready to receive the next
path, holding a decoded task whose send into `tasksChan` is pending, or
exited (its `WaitGroup.Done` has run). -/
inductive LoaderState where
  | idle
  | pending (t : ImageTask)
  | done
deriving DecidableEq

/-- State of one `processWorker` goroutine: ready to receive, holding a
transformed task whose send into `resultsChan` is pending, or exited. -/
inductive WorkerState where
  | idle
  | pending (t : ImageTask)
  | done
deriving DecidableEq

/-- State of the single `saveWorker` goroutine. -/
inductive SaverState where
  | idle
  | done
deriving DecidableEq

/-- Global state of one execution of `runParallelPipeline`: the three
channels, the four kinds of goroutines (the worker pool as a multiset of
worker states, one per spawned worker), the files successfully written by
the save stage (keyed by source path) and the items dropped with a logged
failure (by source path). -/
structure PipeState where
  files : Chan String
  tasks : Chan ImageTask
  results : Chan ImageTask
  mainPC : MainPC
  loader : LoaderState
  workers : Multiset WorkerState
  saver : SaverState
  saved : List (String × List Nat)
  failures : List String
deriving DecidableEq

/-- Initial state of `runParallelPipeline(filePaths, numWorkers)`:
`filesChan := make(chan string, len(filePaths))`,
`tasksChan := make(chan ImageTask, numWorkers)`,
`resultsChan := make(chan ImageTask, numWorkers)`, the save goroutine, the
`numWorkers` process goroutines and the load goroutine started, and the
orchestrator about to push all paths. -/
def initState (paths : List String) (nW : Nat) : PipeState :=
  { files := ⟨[], paths.length, false⟩
    tasks := ⟨[], nW, false⟩
    results := ⟨[], nW, false⟩
    mainPC := .sending paths
    loader := .idle
    workers := Multiset.replicate nW .idle
    saver := .idle
    saved := []
    failures := [] }

/-- Interleaving small-step semantics of the pipeline.  Each constructor
is one atomic action of one goroutine of `runParallelPipeline`; guards on
`closed`/`cap`/`buf` are exactly Go's channel semantics (a full channel
blocks the sender, an empty open channel blocks the receiver, a closed
drained channel ends a `for range`). -/
inductive Step (env : PipeEnv) : PipeState → PipeState → Prop where
  | mainSend (s : PipeState) (p : String) (rest : List String)
      (hpc : s.mainPC = .sending (p :: rest))
      (hcl : s.files.closed = false)
      (hcap : s.files.buf.length < s.files.cap) :
      Step env s { s with mainPC := .sending rest,
                          files := { s.files with buf := s.files.buf ++ [p] } }
  | mainCloseFiles (s : PipeState)
      (hpc : s.mainPC = .sending []) :
      Step env s { s with mainPC := .waitLoad,
                          files := { s.files with closed := true } }
  | mainCloseTasks (s : PipeState)
      (hpc : s.mainPC = .waitLoad) (hl : s.loader = .done) :
      Step env s { s with mainPC := .waitProcess,
                          tasks := { s.tasks with closed := true } }
  | mainCloseResults (s : PipeState)
      (hpc : s.mainPC = .waitProcess) (hw : ∀ w ∈ s.workers, w = .done) :
      Step env s { s with mainPC := .waitSave,
                          results := { s.results with closed := true } }
  | mainFinish (s : PipeState)
      (hpc : s.mainPC = .waitSave) (hs : s.saver = .done) :
      Step env s { s with mainPC := .done }
  | loadRecvOk (s : PipeState) (p : String) (rest : List String) (img : GoImage)
      (hl : s.loader = .idle) (hq : s.files.buf = p :: rest)
      (hd : loadFile env p = some img) :
      Step env s { s with loader := .pending ⟨p, img⟩,
                          files := { s.files with buf := rest } }
  | loadRecvFail (s : PipeState) (p : String) (rest : List String)
      (hl : s.loader = .idle) (hq : s.files.buf = p :: rest)
      (hd : loadFile env p = none) :
      Step env s { s with failures := s.failures ++ [p],
                          files := { s.files with buf := rest } }
  | loadExit (s : PipeState)
      (hl : s.loader = .idle) (hq : s.files.buf = [])
      (hc : s.files.closed = true) :
      Step env s { s with loader := .done }
  | loadSend (s : PipeState) (t : ImageTask)
      (hl : s.loader = .pending t) (hcl : s.tasks.closed = false)
      (hcap : s.tasks.buf.length < s.tasks.cap) :
      Step env s { s with loader := .idle,
                          tasks := { s.tasks with buf := s.tasks.buf ++ [t] } }
  | workRecv (s : PipeState) (t : ImageTask) (rest : List ImageTask)
      (hw : .idle ∈ s.workers) (hq : s.tasks.buf = t :: rest) :
      Step env s { s with workers := (s.workers.erase .idle) + {.pending (procTask t)},
                          tasks := { s.tasks with buf := rest } }
  | workExit (s : PipeState)
      (hw : .idle ∈ s.workers) (hq : s.tasks.buf = [])
      (hc : s.tasks.closed = true) :
      Step env s { s with workers := (s.workers.erase .idle) + {.done} }
  | workSend (s : PipeState) (t : ImageTask)
      (hw : .pending t ∈ s.workers) (hcl : s.results.closed = false)
      (hcap : s.results.buf.length < s.results.cap) :
      Step env s { s with workers := (s.workers.erase (.pending t)) + {.idle},
                          results := { s.results with buf := s.results.buf ++ [t] } }
  | saveRecvOk (s : PipeState) (t : ImageTask) (rest : List ImageTask)
      (hs : s.saver = .idle) (hq : s.results.buf = t :: rest)
      (hc : env.createOk (parOut t.FilePath) = true) :
      Step env s { s with saved := s.saved ++ [(t.FilePath, env.encode t.Img)],
                          results := { s.results with buf := rest } }
  | saveRecvFail (s : PipeState) (t : ImageTask) (rest : List ImageTask)
      (hs : s.saver = .idle) (hq : s.results.buf = t :: rest)
      (hc : env.createOk (parOut t.FilePath) = false) :
      Step env s { s with failures := s.failures ++ [t.FilePath],
                          results := { s.results with buf := rest } }
  | saveExit (s : PipeState)
      (hs : s.saver = .idle) (hq : s.results.buf = [])
      (hc : s.results.closed = true) :
      Step env s { s with saver := .done }

/-- Reflexive-transitive closure of `Step`: the reachable states of a run. -/
inductive Reach (env : PipeEnv) : PipeState → PipeState → Prop where
  | refl (s : PipeState) : Reach env s s
  | tail {a b c : PipeState} : Reach env a b → Step env b c → Reach env a c

/-- Length-indexed reachability, to bound the number of steps of any run. -/
inductive ReachN (env : PipeEnv) : PipeState → Nat → PipeState → Prop where
  | refl (s : PipeState) : ReachN env s 0 s
  | tail {a b c : PipeState} {n : Nat} :
      ReachN env a n b → Step env b c → ReachN env a (n + 1) c

/-- A send on a closed channel: some goroutine is at a send point while
its target channel is already closed.  In Go this panics and kills the
process; the drain ordering must make it unreachable. -/
def SendFault (s : PipeState) : Prop :=
  (s.files.closed = true ∧ ∃ p rest, s.mainPC = .sending (p :: rest))
  ∨ (s.tasks.closed = true ∧ ∃ t, s.loader = .pending t)
  ∨ (s.results.closed = true ∧ ∃ t, .pending t ∈ s.workers)

/-- Paths the orchestrator has not yet pushed into `filesChan`. -/
def restList : MainPC → List String
  | .sending rest => rest
  | _ => []

/-- How far the orchestrator has progressed through its
send/close/wait sequence. -/
def mainStage : MainPC → Nat
  | .sending _ => 0
  | .waitLoad => 1
  | .waitProcess => 2
  | .waitSave => 3
  | .done => 4

/-- Termination weight of the orchestrator. -/
def mainWeight : MainPC → Nat
  | .sending _ => 4
  | .waitLoad => 3
  | .waitProcess => 2
  | .waitSave => 1
  | .done => 0

/-- Termination weight of the loader. -/
def loaderWeight : LoaderState → Nat
  | .idle => 1
  | .pending _ => 5
  | .done => 0

/-- Termination weight of one worker. -/
def workerWeight : WorkerState → Nat
  | .idle => 1
  | .pending _ => 3
  | .done => 0

/-- Termination weight of the saver. -/
def saverWeight : SaverState → Nat
  | .idle => 1
  | .done => 0

/-- Global termination measure: every step of every goroutine strictly
decreases it, so a run from `initState paths nW` has at most
`6 * paths.length + nW + 6` steps. -/
def pipeMeasure (s : PipeState) : Nat :=
  6 * (restList s.mainPC).length + 5 * s.files.buf.length
    + 3 * s.tasks.buf.length + s.results.buf.length
    + mainWeight s.mainPC + loaderWeight s.loader
    + (s.workers.map workerWeight).sum + saverWeight s.saver

/-- Source path held by the loader, as a multiset. -/
def heldLoader : LoaderState → Multiset String
  | .pending t => {t.FilePath}
  | _ => 0

/-- Source path held by one worker, as a multiset. -/
def heldWorker : WorkerState → Multiset String
  | .pending t => {t.FilePath}
  | _ => 0

/-- Accounting multiset: every discovered path, wherever it currently is
(not yet sent, buffered in a channel, held by a goroutine, saved, or
dropped with a failure).  It is preserved by every step, which is the
"exactly one terminal outcome per path" invariant. -/
def acctMS (s : PipeState) : Multiset String :=
  ↑(restList s.mainPC) + ↑s.files.buf + heldLoader s.loader
    + ↑(s.tasks.buf.map ImageTask.FilePath)
    + (s.workers.map heldWorker).sum
    + ↑(s.results.buf.map ImageTask.FilePath)
    + ↑(s.saved.map Prod.fst) + ↑s.failures

/-- The heap model of image allocation: a heap is the list of live RGBA
buffers, a pointer an index into it.  `image.NewRGBA` appends a fresh
zero-filled buffer and returns its pointer. -/
def newRGBA (heap : List GoImage) (minX minY : Int) (w h : Nat) :
    List GoImage × Nat :=
  (heap ++ [⟨minX, minY, w, h, List.replicate (w * h) zeroPix⟩], heap.length)

/-- Dereference a heap pointer. -/
def heapImg (heap : List GoImage) (ptr : Nat) : GoImage :=
  heap.getD ptr ⟨0, 0, 0, 0, []⟩

/-- `SetRGBA` through a heap pointer: overwrite one pixel of the
pointed-to buffer in place. -/
def heapSetPix (heap : List GoImage) (ptr : Nat) (i : Nat) (px : Pixel) :
    List GoImage :=
  heap.set ptr { heapImg heap ptr with pix := (heapImg heap ptr).pix.set i px }

/-- Heap-level model of `toGrayscale`: read the bounds of the source
buffer, allocate a fresh RGBA buffer (`image.NewRGBA`), then loop over all
pixels in row-major order reading `img.At` from the (live) source buffer
and writing `SetRGBA` into the new buffer; return the new pointer. -/
def toGrayscaleH (heap : List GoImage) (src : Nat) : List GoImage × Nat :=
  let img := heapImg heap src
  let a := newRGBA heap img.minX img.minY img.w img.h
  let h2 := (List.range (img.w * img.h)).foldl
    (fun hh i =>
      heapSetPix hh a.2 i
        (grayPix (imgAt (heapImg hh src) (coordX img i) (coordY img i)))) a.1
  (h2, a.2)

/-- Heap-level model of `toSepia`, structured as `toGrayscaleH`. -/
def toSepiaH (heap : List GoImage) (src : Nat) : List GoImage × Nat :=
  let img := heapImg heap src
  let a := newRGBA heap img.minX img.minY img.w img.h
  let h2 := (List.range (img.w * img.h)).foldl
    (fun hh i =>
      heapSetPix hh a.2 i
        (sepiaPix (imgAt (heapImg hh src) (coordX img i) (coordY img i)))) a.1
  (h2, a.2)

/-- Heap-level model of the `processWorker` body on one task's payload:
`grayImg := toGrayscale(task.Img)` then `sepiaImg := toSepia(grayImg)`,
returning the heap and the pointer to the sepia buffer. -/
def processItemH (heap : List GoImage) (src : Nat) : List GoImage × Nat :=
  let r1 := toGrayscaleH heap src
  let r2 := toSepiaH r1.1 r1.2
  r2

/-- An environment for concrete witnesses: every open succeeds, nothing
decodes, every create succeeds, encoding yields no bytes. -/
def envW : PipeEnv :=
  ⟨fun _ => true, fun _ => none, fun _ => true, fun _ => []⟩

/-- A save environment in which every `os.Create` succeeds and every
`jpeg.Encode` fails, to exercise the encode-failure branch. -/
def envE : SaveEnv :=
  ⟨fun _ => true, fun _ => .error "encode failed"⟩

/-- A concrete 1x1 image used in witnesses. -/
def oneImg : GoImage :=
  ⟨0, 0, 1, 1, [⟨10, 20, 30, 255⟩]⟩

/-- A concrete task used in witnesses. -/
def t0 : ImageTask :=
  ⟨"input_images/a.jpg", oneImg⟩

/-- Terminal state of the parallel pipeline on the empty path list with
one worker, used as a concrete witness run. -/
def emptyFinal : PipeState :=
  { files := ⟨[], 0, true⟩
    tasks := ⟨[], 1, true⟩
    results := ⟨[], 1, true⟩
    mainPC := .done
    loader := .done
    workers := {.done}
    saver := .done
    saved := []
    failures := [] }

/-- The bytes written for a decodable source path by either runner:
the JPEG encoding of the grayscale-then-sepia transform of the decoded
image (and `[]` as a don't-care value for undecodable paths, which are
never written). -/
def outBytes (env : PipeEnv) (p : String) : List Nat :=
  match loadFile env p with
  | some img => env.encode (procImg img)
  | none => []

/-- Inductive invariant of the pipeline semantics: channel capacities as
constructed, pool size constant, the close flags tied to the
orchestrator's progress, the drain ordering (each queue is closed only
after its producers have finished), emptiness facts at each join point,
input-queue capacity accounting, the conservation of discovered paths
(`acctMS`), and the payload contents at each position. -/
structure PipeInv (paths : List String) (nW : Nat) (env : PipeEnv)
    (s : PipeState) : Prop where
  capF : s.files.cap = paths.length
  capT : s.tasks.cap = nW
  capR : s.results.cap = nW
  wcard : Multiset.card s.workers = nW
  fclosed : s.files.closed = true ↔ 1 ≤ mainStage s.mainPC
  tclosed : s.tasks.closed = true ↔ 2 ≤ mainStage s.mainPC
  rclosed : s.results.closed = true ↔ 3 ≤ mainStage s.mainPC
  ldone : s.tasks.closed = true → s.loader = .done
  wdone : s.results.closed = true → ∀ w ∈ s.workers, w = .done
  sdone : s.mainPC = .done → s.saver = .done
  wdone_tc : .done ∈ s.workers → s.tasks.closed = true
  sdone_rc : s.saver = .done → s.results.closed = true
  ldone_f : s.loader = .done → s.files.buf = []
  ldone_fc : s.loader = .done → s.files.closed = true
  awdone_t : 1 ≤ nW → (∀ w ∈ s.workers, w = .done) → s.tasks.buf = []
  sdone_r : s.saver = .done → s.results.buf = []
  fcap : s.files.buf.length + (restList s.mainPC).length ≤ paths.length
  acct : acctMS s = ↑paths
  ctask : ∀ t ∈ s.tasks.buf, loadFile env t.FilePath = some t.Img
  cload : ∀ t, s.loader = .pending t → loadFile env t.FilePath = some t.Img
  cwork : ∀ t, .pending t ∈ s.workers →
    ∃ img, loadFile env t.FilePath = some img ∧ t.Img = procImg img
  cres : ∀ t ∈ s.results.buf,
    ∃ img, loadFile env t.FilePath = some img ∧ t.Img = procImg img
  csaved : ∀ e ∈ s.saved, ∃ img, loadFile env e.1 = some img
    ∧ e.2 = env.encode (procImg img) ∧ env.createOk (parOut e.1) = true
  cfail : ∀ p ∈ s.failures,
    loadFile env p = none ∨ ((loadFile env p).isSome ∧ env.createOk (parOut p) = false)

/-- The invariant holds in the initial state. -/
theorem inv_init (paths : List String) (nW : Nat) (env : PipeEnv) :
    PipeInv paths nW env (initState paths nW) := by
  refine ⟨rfl, rfl, rfl, ?_, ?_, ?_, ?_, ?_, ?_, ?_, ?_, ?_, ?_, ?_, ?_, ?_, ?_, ?_,
    ?_, ?_, ?_, ?_, ?_, ?_⟩ <;>
    simp [initState, mainStage, restList, acctMS, heldLoader, heldWorker,
      Multiset.mem_replicate]

/-- Splitting a mapped sum at one occurrence of an element. -/
theorem msum_erase {α β : Type} [DecidableEq α] [AddCommMonoid β]
    (f : α → β) {m : Multiset α} {a : α} (h : a ∈ m) :
    (m.map f).sum = f a + ((m.erase a).map f).sum := by
  conv_lhs => rw [← Multiset.cons_erase h]
  simp

/-- Mapped sum after adding one element. -/
theorem msum_addone {α β : Type} [AddCommMonoid β]
    (f : α → β) (m : Multiset α) (b : α) :
    ((m + {b}).map f).sum = (m.map f).sum + f b := by
  simp

/-- Every step of the pipeline semantics preserves the invariant. -/
theorem inv_step {paths : List String} {nW : Nat} {env : PipeEnv}
    {s s' : PipeState} (I : PipeInv paths nW env s) (h : Step env s s') :
    PipeInv paths nW env s' := by
  cases h with
  | mainSend p rest hpc hcl hcap =>
    have hto : s.tasks.closed = false := by
      have h3 := I.tclosed; rw [hpc] at h3; simpa [mainStage] using h3
    have hro : s.results.closed = false := by
      have h3 := I.rclosed; rw [hpc] at h3; simpa [mainStage] using h3
    refine ⟨I.capF, I.capT, I.capR, I.wcard, ?_, ?_, ?_, I.ldone, I.wdone, ?_,
      I.wdone_tc, I.sdone_rc, ?_, I.ldone_fc, I.awdone_t, I.sdone_r, ?_, ?_,
      I.ctask, I.cload, I.cwork, I.cres, I.csaved, I.cfail⟩
    · simp [hcl, mainStage]
    · simp [hto, mainStage]
    · simp [hro, mainStage]
    · nofun
    · intro hd; rw [I.ldone_fc hd] at hcl; cases hcl
    · have h2 := I.fcap; rw [hpc] at h2; simp [restList] at h2 ⊢; omega
    · have h2 := I.acct
      simp only [acctMS] at h2 ⊢
      rw [hpc] at h2
      simp only [restList] at h2 ⊢
      rw [← h2]
      simp only [List.map_append, List.map_cons, List.map_nil, ← Multiset.coe_add,
        ← Multiset.cons_coe, ← Multiset.singleton_add, Multiset.coe_nil,
        add_zero, zero_add]
      abel
  | mainCloseFiles hpc =>
    have hto : s.tasks.closed = false := by
      have h3 := I.tclosed; rw [hpc] at h3; simpa [mainStage] using h3
    have hro : s.results.closed = false := by
      have h3 := I.rclosed; rw [hpc] at h3; simpa [mainStage] using h3
    refine ⟨I.capF, I.capT, I.capR, I.wcard, ?_, ?_, ?_, I.ldone, I.wdone, ?_,
      I.wdone_tc, I.sdone_rc, I.ldone_f, ?_, I.awdone_t, I.sdone_r, ?_, ?_,
      I.ctask, I.cload, I.cwork, I.cres, I.csaved, I.cfail⟩
    · simp [mainStage]
    · simp [hto, mainStage]
    · simp [hro, mainStage]
    · nofun
    · intro _; rfl
    · have h2 := I.fcap; rw [hpc] at h2; simp [restList] at h2 ⊢; omega
    · have h2 := I.acct
      simp only [acctMS] at h2 ⊢
      rw [hpc] at h2
      simpa only [restList] using h2
  | mainCloseTasks hpc hl =>
    have hfc : s.files.closed = true := I.fclosed.mpr (by rw [hpc]; simp [mainStage])
    have hro : s.results.closed = false := by
      have h3 := I.rclosed; rw [hpc] at h3; simpa [mainStage] using h3
    refine ⟨I.capF, I.capT, I.capR, I.wcard, ?_, ?_, ?_, ?_, I.wdone, ?_,
      ?_, I.sdone_rc, I.ldone_f, I.ldone_fc, I.awdone_t, I.sdone_r, ?_, ?_,
      I.ctask, I.cload, I.cwork, I.cres, I.csaved, I.cfail⟩
    · simp [hfc, mainStage]
    · simp [mainStage]
    · simp [hro, mainStage]
    · intro _; exact hl
    · nofun
    · intro _; rfl
    · have h2 := I.fcap; rw [hpc] at h2; simpa [restList] using h2
    · have h2 := I.acct
      simp only [acctMS] at h2 ⊢
      rw [hpc] at h2
      simpa only [restList] using h2
  | mainCloseResults hpc hw =>
    have hfc : s.files.closed = true := I.fclosed.mpr (by rw [hpc]; simp [mainStage])
    have htc : s.tasks.closed = true := I.tclosed.mpr (by rw [hpc]; simp [mainStage])
    refine ⟨I.capF, I.capT, I.capR, I.wcard, ?_, ?_, ?_, ?_, ?_, ?_,
      ?_, ?_, I.ldone_f, I.ldone_fc, I.awdone_t, I.sdone_r, ?_, ?_,
      I.ctask, I.cload, I.cwork, I.cres, I.csaved, I.cfail⟩
    · simp [hfc, mainStage]
    · simp [htc, mainStage]
    · simp [mainStage]
    · intro _; exact I.ldone htc
    · intro _; exact hw
    · nofun
    · intro _; exact htc
    · intro _; rfl
    · have h2 := I.fcap; rw [hpc] at h2; simpa [restList] using h2
    · have h2 := I.acct
      simp only [acctMS] at h2 ⊢
      rw [hpc] at h2
      simpa only [restList] using h2
  | mainFinish hpc hs =>
    have hfc : s.files.closed = true := I.fclosed.mpr (by rw [hpc]; simp [mainStage])
    have htc : s.tasks.closed = true := I.tclosed.mpr (by rw [hpc]; simp [mainStage])
    have hrc : s.results.closed = true := I.rclosed.mpr (by rw [hpc]; simp [mainStage])
    refine ⟨I.capF, I.capT, I.capR, I.wcard, ?_, ?_, ?_, ?_, I.wdone, ?_,
      ?_, I.sdone_rc, I.ldone_f, I.ldone_fc, I.awdone_t, I.sdone_r, ?_, ?_,
      I.ctask, I.cload, I.cwork, I.cres, I.csaved, I.cfail⟩
    · simp [hfc, mainStage]
    · simp [htc, mainStage]
    · simp [hrc, mainStage]
    · intro _; exact I.ldone htc
    · intro _; exact hs
    · intro _; exact htc
    · have h2 := I.fcap; rw [hpc] at h2; simpa [restList] using h2
    · have h2 := I.acct
      simp only [acctMS] at h2 ⊢
      rw [hpc] at h2
      simpa only [restList] using h2
  | loadRecvOk p rest img hl hq hd =>
    refine ⟨I.capF, I.capT, I.capR, I.wcard, I.fclosed, I.tclosed, I.rclosed, ?_,
      I.wdone, I.sdone, I.wdone_tc, I.sdone_rc, ?_, ?_, I.awdone_t, I.sdone_r,
      ?_, ?_, I.ctask, ?_, I.cwork, I.cres, I.csaved, I.cfail⟩
    · intro hcl; have h3 := I.ldone hcl; rw [hl] at h3; cases h3
    · nofun
    · nofun
    · have h2 := I.fcap; rw [hq] at h2; simp at h2 ⊢; omega
    · have h2 := I.acct
      simp only [acctMS] at h2 ⊢
      rw [hq, hl] at h2
      simp only [heldLoader] at h2 ⊢
      rw [← h2]
      simp only [List.map_append, List.map_cons, List.map_nil, ← Multiset.coe_add,
        ← Multiset.cons_coe, ← Multiset.singleton_add, Multiset.coe_nil,
        add_zero, zero_add]
      abel
    · intro t ht
      injection ht with h3
      rw [← h3]
      exact hd
  | loadRecvFail p rest hl hq hd =>
    refine ⟨I.capF, I.capT, I.capR, I.wcard, I.fclosed, I.tclosed, I.rclosed,
      I.ldone, I.wdone, I.sdone, I.wdone_tc, I.sdone_rc, ?_, I.ldone_fc,
      I.awdone_t, I.sdone_r, ?_, ?_, I.ctask, I.cload, I.cwork, I.cres,
      I.csaved, ?_⟩
    · intro h3; have h4 := I.ldone_f h3; rw [hq] at h4; cases h4
    · have h2 := I.fcap; rw [hq] at h2; simp at h2 ⊢; omega
    · have h2 := I.acct
      simp only [acctMS] at h2 ⊢
      rw [hq] at h2
      rw [← h2]
      simp only [List.map_append, List.map_cons, List.map_nil, ← Multiset.coe_add,
        ← Multiset.cons_coe, ← Multiset.singleton_add, Multiset.coe_nil,
        add_zero, zero_add]
      abel
    · intro q hqm
      rcases List.mem_append.mp hqm with h3 | h3
      · exact I.cfail q h3
      · simp at h3; rw [h3]; exact Or.inl hd
  | loadExit hl hq hc =>
    refine ⟨I.capF, I.capT, I.capR, I.wcard, I.fclosed, I.tclosed, I.rclosed, ?_,
      I.wdone, I.sdone, I.wdone_tc, I.sdone_rc, ?_, ?_, I.awdone_t, I.sdone_r,
      I.fcap, ?_, I.ctask, ?_, I.cwork, I.cres, I.csaved, I.cfail⟩
    · intro _; rfl
    · intro _; exact hq
    · intro _; exact hc
    · have h2 := I.acct
      simp only [acctMS] at h2 ⊢
      rw [hl] at h2
      simpa only [heldLoader] using h2
    · nofun
  | loadSend t hl hcl hcap =>
    refine ⟨I.capF, I.capT, I.capR, I.wcard, I.fclosed, I.tclosed, I.rclosed, ?_,
      I.wdone, I.sdone, I.wdone_tc, I.sdone_rc, ?_, ?_, ?_,
      I.sdone_r, I.fcap, ?_, ?_, ?_, I.cwork, I.cres, I.csaved, I.cfail⟩
    · intro h3; rw [h3] at hcl; cases hcl
    · nofun
    · nofun
    · intro h1 hall
      exfalso
      have hne : s.workers ≠ 0 := by
        intro h0
        have := I.wcard
        rw [h0] at this
        simp at this
        omega
      obtain ⟨w, hwm⟩ := Multiset.exists_mem_of_ne_zero hne
      have hwd := hall w hwm
      rw [hwd] at hwm
      have := I.wdone_tc hwm
      rw [this] at hcl
      cases hcl
    · have h2 := I.acct
      simp only [acctMS] at h2 ⊢
      rw [hl] at h2
      simp only [heldLoader] at h2 ⊢
      rw [← h2]
      simp only [List.map_append, List.map_cons, List.map_nil, ← Multiset.coe_add,
        ← Multiset.cons_coe, ← Multiset.singleton_add, Multiset.coe_nil,
        add_zero, zero_add]
      abel
    · intro t' ht'
      rcases List.mem_append.mp ht' with h3 | h3
      · exact I.ctask t' h3
      · simp at h3; rw [h3]; exact I.cload t hl
    · nofun
  | workRecv t rest hw hq =>
    refine ⟨I.capF, I.capT, I.capR, ?_, I.fclosed, I.tclosed, I.rclosed, I.ldone,
      ?_, I.sdone, ?_, I.sdone_rc, I.ldone_f, I.ldone_fc, ?_, I.sdone_r,
      I.fcap, ?_, ?_, I.cload, ?_, I.cres, I.csaved, I.cfail⟩
    · have h3 := Multiset.card_erase_add_one hw
      simp only [Multiset.card_add, Multiset.card_singleton]
      rw [← I.wcard]
      omega
    · intro hrc _ _
      exact absurd (I.wdone hrc .idle hw) (by simp)
    · intro hmem
      rcases Multiset.mem_add.mp hmem with h3 | h3
      · exact I.wdone_tc (Multiset.mem_of_mem_erase h3)
      · simp at h3
    · intro h1 hall
      exfalso
      have hmem : WorkerState.pending (procTask t) ∈
          s.workers.erase .idle + {.pending (procTask t)} :=
        Multiset.mem_add.mpr (Or.inr (Multiset.mem_singleton_self _))
      exact absurd (hall _ hmem) (by simp)
    · have h2 := I.acct
      simp only [acctMS] at h2 ⊢
      rw [hq, msum_erase heldWorker hw] at h2
      rw [msum_addone, ← h2]
      simp only [heldWorker, procTask, List.map_cons, ← Multiset.cons_coe,
        ← Multiset.singleton_add, add_zero, zero_add]
      abel
    · intro t' ht'
      exact I.ctask t' (by rw [hq]; exact List.mem_cons_of_mem _ ht')
    · intro t' hmem
      rcases Multiset.mem_add.mp hmem with h3 | h3
      · exact I.cwork t' (Multiset.mem_of_mem_erase h3)
      · have h4 : t' = procTask t := by simpa using h3
        refine ⟨t.Img, ?_, ?_⟩
        · rw [h4]
          exact I.ctask t (by rw [hq]; exact List.mem_cons_self t rest)
        · rw [h4]
          rfl
  | workExit hw hq hc =>
    refine ⟨I.capF, I.capT, I.capR, ?_, I.fclosed, I.tclosed, I.rclosed, I.ldone,
      ?_, I.sdone, ?_, I.sdone_rc, I.ldone_f, I.ldone_fc, ?_, I.sdone_r,
      I.fcap, ?_, I.ctask, I.cload, ?_, I.cres, I.csaved, I.cfail⟩
    · have h3 := Multiset.card_erase_add_one hw
      simp only [Multiset.card_add, Multiset.card_singleton]
      rw [← I.wcard]
      omega
    · intro hrc w hwm
      rcases Multiset.mem_add.mp hwm with h3 | h3
      · exact I.wdone hrc w (Multiset.mem_of_mem_erase h3)
      · simpa using h3
    · intro _; exact hc
    · intro _ _; exact hq
    · have h2 := I.acct
      simp only [acctMS] at h2 ⊢
      rw [msum_erase heldWorker hw] at h2
      rw [msum_addone, ← h2]
      simp only [heldWorker, add_zero, zero_add]
    · intro t' hmem
      rcases Multiset.mem_add.mp hmem with h3 | h3
      · exact I.cwork t' (Multiset.mem_of_mem_erase h3)
      · simp at h3
  | workSend t hw hcl hcap =>
    refine ⟨I.capF, I.capT, I.capR, ?_, I.fclosed, I.tclosed, I.rclosed, I.ldone,
      ?_, I.sdone, ?_, I.sdone_rc, I.ldone_f, I.ldone_fc, ?_, ?_,
      I.fcap, ?_, I.ctask, I.cload, ?_, ?_, I.csaved, I.cfail⟩
    · have h3 := Multiset.card_erase_add_one hw
      simp only [Multiset.card_add, Multiset.card_singleton]
      rw [← I.wcard]
      omega
    · intro hrc _ _
      exact absurd (I.wdone hrc _ hw) (by simp)
    · intro hmem
      rcases Multiset.mem_add.mp hmem with h3 | h3
      · exact I.wdone_tc (Multiset.mem_of_mem_erase h3)
      · simp at h3
    · intro h1 hall
      exfalso
      have hmem : WorkerState.idle ∈ s.workers.erase (.pending t) + {.idle} :=
        Multiset.mem_add.mpr (Or.inr (Multiset.mem_singleton_self _))
      exact absurd (hall _ hmem) (by simp)
    · intro hsd
      exact absurd (I.sdone_rc hsd) (by simp [hcl])
    · have h2 := I.acct
      simp only [acctMS] at h2 ⊢
      rw [msum_erase heldWorker hw] at h2
      rw [msum_addone, ← h2]
      simp only [heldWorker, List.map_append, List.map_cons, List.map_nil,
        ← Multiset.coe_add, ← Multiset.cons_coe, ← Multiset.singleton_add,
        Multiset.coe_nil, add_zero, zero_add]
      abel
    · intro t' hmem
      rcases Multiset.mem_add.mp hmem with h3 | h3
      · exact I.cwork t' (Multiset.mem_of_mem_erase h3)
      · simp at h3
    · intro t' ht'
      rcases List.mem_append.mp ht' with h3 | h3
      · exact I.cres t' h3
      · simp at h3; rw [h3]; exact I.cwork t hw
  | saveRecvOk t rest hsv hq hc =>
    refine ⟨I.capF, I.capT, I.capR, I.wcard, I.fclosed, I.tclosed, I.rclosed,
      I.ldone, I.wdone, I.sdone, I.wdone_tc, I.sdone_rc, I.ldone_f, I.ldone_fc,
      I.awdone_t, ?_, I.fcap, ?_, I.ctask, I.cload, I.cwork, ?_, ?_, I.cfail⟩
    · intro hsd; have h3 := I.sdone_r hsd; rw [hq] at h3; cases h3
    · have h2 := I.acct
      simp only [acctMS] at h2 ⊢
      rw [hq] at h2
      rw [← h2]
      simp only [List.map_append, List.map_cons, List.map_nil, ← Multiset.coe_add,
        ← Multiset.cons_coe, ← Multiset.singleton_add, Multiset.coe_nil,
        add_zero, zero_add]
      abel
    · intro t' ht'
      exact I.cres t' (by rw [hq]; exact List.mem_cons_of_mem _ ht')
    · intro e he
      rcases List.mem_append.mp he with h3 | h3
      · exact I.csaved e h3
      · obtain ⟨img, h4, h5⟩ := I.cres t (by rw [hq]; exact List.mem_cons_self t rest)
        simp at h3
        rw [h3]
        exact ⟨img, h4, by rw [h5], hc⟩
  | saveRecvFail t rest hsv hq hc =>
    refine ⟨I.capF, I.capT, I.capR, I.wcard, I.fclosed, I.tclosed, I.rclosed,
      I.ldone, I.wdone, I.sdone, I.wdone_tc, I.sdone_rc, I.ldone_f, I.ldone_fc,
      I.awdone_t, ?_, I.fcap, ?_, I.ctask, I.cload, I.cwork, ?_, I.csaved, ?_⟩
    · intro hsd; have h3 := I.sdone_r hsd; rw [hq] at h3; cases h3
    · have h2 := I.acct
      simp only [acctMS] at h2 ⊢
      rw [hq] at h2
      rw [← h2]
      simp only [List.map_append, List.map_cons, List.map_nil, ← Multiset.coe_add,
        ← Multiset.cons_coe, ← Multiset.singleton_add, Multiset.coe_nil,
        add_zero, zero_add]
      abel
    · intro t' ht'
      exact I.cres t' (by rw [hq]; exact List.mem_cons_of_mem _ ht')
    · intro q hqm
      rcases List.mem_append.mp hqm with h3 | h3
      · exact I.cfail q h3
      · obtain ⟨img, h4, h5⟩ := I.cres t (by rw [hq]; exact List.mem_cons_self t rest)
        simp at h3
        rw [h3]
        exact Or.inr ⟨by rw [h4]; rfl, hc⟩
  | saveExit hsv hq hc =>
    refine ⟨I.capF, I.capT, I.capR, I.wcard, I.fclosed, I.tclosed, I.rclosed,
      I.ldone, I.wdone, ?_, I.wdone_tc, ?_, I.ldone_f, I.ldone_fc,
      I.awdone_t, ?_, I.fcap, I.acct, I.ctask, I.cload, I.cwork, I.cres,
      I.csaved, I.cfail⟩
    · intro _; rfl
    · intro _; exact hc
    · intro _; exact hq

/-- The invariant holds in every reachable state. -/
theorem reach_inv {paths : List String} {nW : Nat} {env : PipeEnv} {s : PipeState}
    (h : Reach env (initState paths nW) s) : PipeInv paths nW env s := by
  induction h with
  | refl => exact inv_init paths nW env
  | tail _ hstep ih => exact inv_step ih hstep

/-- Every step strictly decreases the termination measure. -/
theorem measure_step {env : PipeEnv} {s s' : PipeState} (h : Step env s s') :
    pipeMeasure s' < pipeMeasure s := by
  cases h with
  | mainSend p rest hpc hcl hcap =>
    simp only [pipeMeasure]
    rw [hpc]
    simp only [restList, mainWeight, List.length_append, List.length_cons,
      List.length_nil]
    omega
  | mainCloseFiles hpc =>
    simp only [pipeMeasure]
    rw [hpc]
    simp only [restList, mainWeight, List.length_nil]
    omega
  | mainCloseTasks hpc hl =>
    simp only [pipeMeasure]
    rw [hpc]
    simp only [restList, mainWeight, List.length_nil]
    omega
  | mainCloseResults hpc hw =>
    simp only [pipeMeasure]
    rw [hpc]
    simp only [restList, mainWeight, List.length_nil]
    omega
  | mainFinish hpc hs =>
    simp only [pipeMeasure]
    rw [hpc]
    simp only [restList, mainWeight, List.length_nil]
    omega
  | loadRecvOk p rest img hl hq hd =>
    simp only [pipeMeasure]
    rw [hq, hl]
    simp only [loaderWeight, List.length_cons]
    omega
  | loadRecvFail p rest hl hq hd =>
    simp only [pipeMeasure]
    rw [hq]
    simp only [List.length_cons]
    omega
  | loadExit hl hq hc =>
    simp only [pipeMeasure]
    rw [hl]
    simp only [loaderWeight]
    omega
  | loadSend t hl hcl hcap =>
    simp only [pipeMeasure]
    rw [hl]
    simp only [loaderWeight, List.length_append, List.length_cons, List.length_nil]
    omega
  | workRecv t rest hw hq =>
    simp only [pipeMeasure]
    rw [hq, msum_erase workerWeight hw, msum_addone]
    simp only [workerWeight, List.length_cons]
    omega
  | workExit hw hq hc =>
    simp only [pipeMeasure]
    rw [msum_erase workerWeight hw, msum_addone]
    simp only [workerWeight]
    omega
  | workSend t hw hcl hcap =>
    simp only [pipeMeasure]
    rw [msum_erase workerWeight hw, msum_addone]
    simp only [workerWeight, List.length_append, List.length_cons, List.length_nil]
    omega
  | saveRecvOk t rest hsv hq hc =>
    simp only [pipeMeasure]
    rw [hq]
    simp only [List.length_cons]
    omega
  | saveRecvFail t rest hsv hq hc =>
    simp only [pipeMeasure]
    rw [hq]
    simp only [List.length_cons]
    omega
  | saveExit hsv hq hc =>
    simp only [pipeMeasure]
    rw [hsv]
    simp only [saverWeight]
    omega

/-- The measure of the initial state. -/
theorem measure_init (paths : List String) (nW : Nat) :
    pipeMeasure (initState paths nW) = 6 * paths.length + nW + 6 := by
  simp [pipeMeasure, initState, restList, mainWeight, loaderWeight, saverWeight,
    Multiset.map_replicate, Multiset.sum_replicate, workerWeight]
  omega

/-- A run of `n` steps leaves at most `pipeMeasure - n`, so `n` is bounded. -/
theorem reachN_measure {env : PipeEnv} {a : PipeState} {n : Nat} {b : PipeState}
    (h : ReachN env a n b) : n + pipeMeasure b ≤ pipeMeasure a := by
  induction h with
  | refl => omega
  | tail _ hstep ih =>
    have := measure_step hstep
    omega

/-- A reachable state of the pipeline never has a pending send into a
closed channel. -/
theorem inv_no_fault {paths : List String} {nW : Nat} {env : PipeEnv}
    {s : PipeState} (I : PipeInv paths nW env s) : ¬ SendFault s := by
  intro hf
  rcases hf with ⟨hfc, p, rest, hpc⟩ | ⟨htc, t, hl⟩ | ⟨hrc, t, hw⟩
  · have h3 := I.fclosed.mp hfc
    rw [hpc] at h3
    simp [mainStage] at h3
  · have h3 := I.ldone htc
    rw [hl] at h3
    cases h3
  · exact absurd (I.wdone hrc _ hw) (by simp)

/-- If the saver is ready and its buffer nonempty, it can take a step. -/
theorem saver_consume {env : PipeEnv} {s : PipeState} (hsv : s.saver = .idle)
    {t : ImageTask} {ts : List ImageTask} (hrb : s.results.buf = t :: ts) :
    ∃ s', Step env s s' := by
  by_cases hc : env.createOk (parOut t.FilePath) = true
  · exact ⟨_, Step.saveRecvOk s t ts hsv hrb hc⟩
  · exact ⟨_, Step.saveRecvFail s t ts hsv hrb (by simpa using hc)⟩

/-- If the results channel is still open but full, the saver can consume. -/
theorem saver_can_consume {paths : List String} {nW : Nat} {env : PipeEnv}
    {s : PipeState} (I : PipeInv paths nW env s) (hW : 1 ≤ nW)
    (hro : s.results.closed = false)
    (hfull : ¬ s.results.buf.length < s.results.cap) :
    ∃ s', Step env s s' := by
  have hsv : s.saver = .idle := by
    cases hsv : s.saver with
    | idle => rfl
    | done => rw [I.sdone_rc hsv] at hro; cases hro
  cases hrb : s.results.buf with
  | nil =>
    exfalso
    rw [hrb] at hfull
    rw [I.capR] at hfull
    simp at hfull
    omega
  | cons t ts => exact saver_consume hsv hrb

/-- From any reachable state in which the orchestrator has not returned,
some goroutine can take a step (deadlock freedom). -/
theorem inv_progress {paths : List String} {nW : Nat} {env : PipeEnv}
    {s : PipeState} (I : PipeInv paths nW env s) (hW : 1 ≤ nW)
    (hnd : s.mainPC ≠ .done) : ∃ s', Step env s s' := by
  cases hm : s.mainPC with
  | done => exact absurd hm hnd
  | sending rest =>
    cases rest with
    | nil => exact ⟨_, Step.mainCloseFiles s hm⟩
    | cons p ps =>
      have hcl : s.files.closed = false := by
        have h3 := I.fclosed; rw [hm] at h3; simpa [mainStage] using h3
      have hcap : s.files.buf.length < s.files.cap := by
        have h2 := I.fcap
        rw [hm] at h2
        simp [restList] at h2
        rw [I.capF]
        omega
      exact ⟨_, Step.mainSend s p ps hm hcl hcap⟩
  | waitLoad =>
    have hfc : s.files.closed = true := I.fclosed.mpr (by rw [hm]; simp [mainStage])
    have hto : s.tasks.closed = false := by
      have h3 := I.tclosed; rw [hm] at h3; simpa [mainStage] using h3
    have hro : s.results.closed = false := by
      have h3 := I.rclosed; rw [hm] at h3; simpa [mainStage] using h3
    cases hl : s.loader with
    | done => exact ⟨_, Step.mainCloseTasks s hm hl⟩
    | idle =>
      cases hfb : s.files.buf with
      | nil => exact ⟨_, Step.loadExit s hl hfb hfc⟩
      | cons p ps =>
        cases hd : loadFile env p with
        | none => exact ⟨_, Step.loadRecvFail s p ps hl hfb hd⟩
        | some img => exact ⟨_, Step.loadRecvOk s p ps img hl hfb hd⟩
    | pending t =>
      by_cases hcap : s.tasks.buf.length < s.tasks.cap
      · exact ⟨_, Step.loadSend s t hl hto hcap⟩
      · -- the transform queue is full, so some worker or the saver can move
        have htb : s.tasks.buf ≠ [] := by
          intro h0
          rw [h0] at hcap
          rw [I.capT] at hcap
          simp at hcap
          omega
        have hwex : ∃ w ∈ s.workers, w ≠ WorkerState.done := by
          by_contra hno
          push_neg at hno
          have hne : s.workers ≠ 0 := by
            intro h0
            have h4 := I.wcard
            rw [h0] at h4
            simp at h4
            omega
          obtain ⟨w, hwm⟩ := Multiset.exists_mem_of_ne_zero hne
          have hwd := hno w hwm
          rw [hwd] at hwm
          rw [I.wdone_tc hwm] at hto
          cases hto
        obtain ⟨w, hwm, hwnd⟩ := hwex
        cases hw2 : w with
        | done => exact absurd hw2 hwnd
        | idle =>
          cases htb2 : s.tasks.buf with
          | nil => exact absurd htb2 htb
          | cons t2 ts => exact ⟨_, Step.workRecv s t2 ts (hw2 ▸ hwm) htb2⟩
        | pending t2 =>
          by_cases hrcap : s.results.buf.length < s.results.cap
          · exact ⟨_, Step.workSend s t2 (hw2 ▸ hwm) hro hrcap⟩
          · exact saver_can_consume I hW hro hrcap
  | waitProcess =>
    have htc : s.tasks.closed = true := I.tclosed.mpr (by rw [hm]; simp [mainStage])
    have hro : s.results.closed = false := by
      have h3 := I.rclosed; rw [hm] at h3; simpa [mainStage] using h3
    by_cases hall : ∀ w ∈ s.workers, w = WorkerState.done
    · exact ⟨_, Step.mainCloseResults s hm hall⟩
    · push_neg at hall
      obtain ⟨w, hwm, hwnd⟩ := hall
      cases hw2 : w with
      | done => exact absurd hw2 hwnd
      | idle =>
        cases htb : s.tasks.buf with
        | nil => exact ⟨_, Step.workExit s (hw2 ▸ hwm) htb htc⟩
        | cons t2 ts => exact ⟨_, Step.workRecv s t2 ts (hw2 ▸ hwm) htb⟩
      | pending t2 =>
        by_cases hrcap : s.results.buf.length < s.results.cap
        · exact ⟨_, Step.workSend s t2 (hw2 ▸ hwm) hro hrcap⟩
        · exact saver_can_consume I hW hro hrcap
  | waitSave =>
    have hrc : s.results.closed = true := I.rclosed.mpr (by rw [hm]; simp [mainStage])
    cases hsv : s.saver with
    | done => exact ⟨_, Step.mainFinish s hm hsv⟩
    | idle =>
      cases hrb : s.results.buf with
      | nil => exact ⟨_, Step.saveExit s hsv hrb hrc⟩
      | cons t ts => exact saver_consume hsv hrb

/-- In a terminal state, the saved and failed source paths together are
exactly the discovered paths, as a multiset (exactly one terminal outcome
per discovered path). -/
theorem final_acct {paths : List String} {nW : Nat} {env : PipeEnv}
    {s : PipeState} (I : PipeInv paths nW env s) (hW : 1 ≤ nW)
    (hf : s.mainPC = .done) :
    (↑(s.saved.map Prod.fst) + ↑s.failures : Multiset String) = ↑paths := by
  have htc : s.tasks.closed = true := I.tclosed.mpr (by rw [hf]; simp [mainStage])
  have hrc : s.results.closed = true := I.rclosed.mpr (by rw [hf]; simp [mainStage])
  have hld : s.loader = .done := I.ldone htc
  have hfb : s.files.buf = [] := I.ldone_f hld
  have hwd : ∀ w ∈ s.workers, w = .done := I.wdone hrc
  have htb : s.tasks.buf = [] := I.awdone_t hW hwd
  have hsv : s.saver = .done := I.sdone hf
  have hrb : s.results.buf = [] := I.sdone_r hsv
  have hsum : (s.workers.map heldWorker).sum = 0 := by
    have hmap : s.workers.map heldWorker
        = s.workers.map (fun _ => (0 : Multiset String)) :=
      Multiset.map_congr rfl (fun w hw => by rw [hwd w hw]; rfl)
    rw [hmap, Multiset.map_const']
    simp
  have h2 := I.acct
  simp only [acctMS] at h2
  rw [hf, hfb, hld, htb, hrb, hsum] at h2
  simpa [restList, heldLoader] using h2

/-- Terminal counts: saved plus failed equals discovered. -/
theorem final_counts {paths : List String} {nW : Nat} {env : PipeEnv}
    {s : PipeState} (I : PipeInv paths nW env s) (hW : 1 ≤ nW)
    (hf : s.mainPC = .done) :
    s.saved.length + s.failures.length = paths.length := by
  have h := congrArg Multiset.card (final_acct I hW hf)
  simpa [Multiset.coe_card] using h

/-- The sequential runner gives every path exactly one terminal outcome. -/
theorem seq_partition (env : PipeEnv) (paths : List String) :
    (↑((runSequentialGo env paths).saved.map Prod.fst)
      + ↑(runSequentialGo env paths).failures : Multiset String) = ↑paths := by
  induction paths with
  | nil => rfl
  | cons p rest ih =>
    simp only [runSequentialGo]
    by_cases ho : env.openOk p = true
    · cases hd : env.decodeRes p with
      | none =>
        simp only [ho, hd, Bool.true_eq_false, if_false, List.map_cons,
          ← Multiset.cons_coe, ← Multiset.singleton_add]
        rw [← ih]
        abel
      | some img =>
        by_cases hc : env.createOk (seqOut p) = true
        · simp only [ho, hd, hc, Bool.true_eq_false, if_false, List.map_cons,
            ← Multiset.cons_coe, ← Multiset.singleton_add]
          rw [← ih]
          abel
        · simp only [ho, hd, Bool.not_eq_true] at *
          simp only [hc, Bool.true_eq_false, if_false, if_true, List.map_cons,
            ← Multiset.cons_coe, ← Multiset.singleton_add]
          rw [← ih]
          abel
    · simp only [Bool.not_eq_true] at ho
      simp only [ho, if_true, List.map_cons,
        ← Multiset.cons_coe, ← Multiset.singleton_add]
      rw [← ih]
      abel

/-- When no write fails, the sequential runner saves exactly the decodable
paths, in order, each with the deterministic transformed bytes. -/
theorem seq_saved_char (env : PipeEnv) (hcr : ∀ x, env.createOk x = true)
    (paths : List String) :
    (runSequentialGo env paths).saved
      = (paths.filter fun p => (loadFile env p).isSome).map
          fun p => (p, outBytes env p) := by
  induction paths with
  | nil => rfl
  | cons p rest ih =>
    simp only [runSequentialGo, List.filter_cons]
    by_cases ho : env.openOk p = true
    · cases hd : env.decodeRes p with
      | none =>
        have hlf : loadFile env p = none := by simp [loadFile, ho, hd]
        simp [ho, hd, hlf, ih]
      | some img =>
        have hlf : loadFile env p = some img := by simp [loadFile, ho, hd]
        simp [ho, hd, hlf, hcr, ih, outBytes]
    · simp only [Bool.not_eq_true] at ho
      have hlf : loadFile env p = none := by simp [loadFile, ho]
      simp [ho, hlf, ih]

/-- In any terminal state of the pipeline with no write failures, the
multiset of saved files equals the sequential runner's saved list. -/
theorem pipeline_saved_eq_seq {paths : List String} {nW : Nat} {env : PipeEnv}
    {s : PipeState} (I : PipeInv paths nW env s) (hW : 1 ≤ nW)
    (hcr : ∀ x, env.createOk x = true) (hf : s.mainPC = .done) :
    (↑s.saved : Multiset (String × List Nat))
      = ↑(runSequentialGo env paths).saved := by
  classical
  have hacct := final_acct I hW hf
  have hA : ∀ p ∈ (↑(s.saved.map Prod.fst) : Multiset String),
      (loadFile env p).isSome = true := by
    intro p hp
    rw [Multiset.mem_coe] at hp
    obtain ⟨e, he, h6⟩ := List.mem_map.mp hp
    obtain ⟨img, h4, h5⟩ := I.csaved e he
    rw [← h6]
    simp [h4]
  have hB : ∀ p ∈ (↑s.failures : Multiset String),
      ¬ (loadFile env p).isSome = true := by
    intro p hp
    rw [Multiset.mem_coe] at hp
    rcases I.cfail p hp with h4 | ⟨h4, h5⟩
    · simp [h4]
    · rw [hcr] at h5; cases h5
  have hfil : (↑(s.saved.map Prod.fst) : Multiset String)
      = Multiset.filter (fun p => (loadFile env p).isSome = true) ↑paths := by
    rw [← hacct, Multiset.filter_add, Multiset.filter_eq_self.mpr hA,
      Multiset.filter_eq_nil.mpr hB, add_zero]
  have hpair : (↑s.saved : Multiset (String × List Nat))
      = Multiset.map (fun p => (p, outBytes env p)) ↑(s.saved.map Prod.fst) := by
    rw [Multiset.map_coe, List.map_map]
    have hcg : ∀ e ∈ s.saved,
        ((fun p => (p, outBytes env p)) ∘ Prod.fst) e = e := by
      intro e he
      obtain ⟨img, h4, h5, h6⟩ := I.csaved e he
      have : outBytes env e.1 = e.2 := by
        rw [outBytes, h4]
        exact h5.symm
      simp [Function.comp_def, this]
    rw [List.map_congr_left hcg]
    simp
  rw [hpair, hfil, seq_saved_char env hcr paths]
  rw [Multiset.filter_coe, Multiset.map_coe]
  have hfe : (paths.filter fun p => decide ((loadFile env p).isSome = true))
      = paths.filter fun p => (loadFile env p).isSome := by
    apply List.filter_congr
    intro p _
    cases (loadFile env p).isSome <;> simp
  rw [hfe]

/-- Element of a mapped range at a valid index. -/
theorem getD_map_range {β : Type} (f : Nat → β) {n i : Nat} (d : β) (h : i < n) :
    ((List.range n).map f).getD i d = f i := by
  simp [List.getD_eq_getElem?_getD, List.getElem?_map, List.getElem?_range, h]

/-- The row-major index of an in-bounds point is inside the buffer. -/
theorem linIndex_lt {img : GoImage} {x y : Int} (h : inBounds img x y) :
    linIndex img x y < img.w * img.h := by
  obtain ⟨h1, h2, h3, h4⟩ := h
  have ha : (y - img.minY).toNat < img.h := by omega
  have hb : (x - img.minX).toNat < img.w := by omega
  simp only [linIndex]
  calc (y - img.minY).toNat * img.w + (x - img.minX).toNat
      < (y - img.minY).toNat * img.w + img.w := by omega
    _ = ((y - img.minY).toNat + 1) * img.w := by ring
    _ ≤ img.h * img.w := Nat.mul_le_mul_right _ ha
    _ = img.w * img.h := Nat.mul_comm _ _

/-- The linearised loop visits `(x, y)` at index `linIndex`. -/
theorem coordX_linIndex {img : GoImage} {x y : Int} (h : inBounds img x y) :
    coordX img (linIndex img x y) = x := by
  obtain ⟨h1, h2, h3, h4⟩ := h
  have hb : (x - img.minX).toNat < img.w := by omega
  simp only [coordX, linIndex]
  rw [Nat.mul_comm ((y - img.minY).toNat) img.w, Nat.mul_add_mod,
    Nat.mod_eq_of_lt hb]
  omega

/-- The linearised loop visits `(x, y)` at index `linIndex`. -/
theorem coordY_linIndex {img : GoImage} {x y : Int} (h : inBounds img x y) :
    coordY img (linIndex img x y) = y := by
  obtain ⟨h1, h2, h3, h4⟩ := h
  have hb : (x - img.minX).toNat < img.w := by omega
  have hw : 0 < img.w := by omega
  simp only [coordY, linIndex]
  rw [Nat.mul_comm ((y - img.minY).toNat) img.w, Nat.mul_add_div hw,
    Nat.div_eq_of_lt hb]
  omega

/-- Pointwise description of the grayscale output inside bounds. -/
theorem imgAt_toGrayscale {img : GoImage} {x y : Int} (h : inBounds img x y) :
    imgAt (toGrayscale img) x y = grayPix (imgAt img x y) := by
  have hb : inBounds (toGrayscale img) x y := h
  rw [imgAt, if_pos hb]
  show ((List.range (img.w * img.h)).map fun i =>
    grayPix (imgAt img (coordX img i) (coordY img i))).getD (linIndex img x y) zeroPix = _
  rw [getD_map_range _ zeroPix (linIndex_lt h), coordX_linIndex h, coordY_linIndex h]

/-- Writing through one heap pointer does not change any other pointer. -/
theorem heapImg_set_ne {heap : List GoImage} {ptr q i : Nat} {px : Pixel}
    (hne : q ≠ ptr) :
    heapImg (heapSetPix heap ptr i px) q = heapImg heap q := by
  simp [heapImg, heapSetPix, List.getD_eq_getElem?_getD,
    List.getElem?_set_ne (by omega : ptr ≠ q)]

/-- Writing through a live heap pointer updates exactly that buffer's pixel. -/
theorem heapImg_set_self {heap : List GoImage} {ptr i : Nat} {px : Pixel}
    (h : ptr < heap.length) :
    heapImg (heapSetPix heap ptr i px) ptr
      = { heapImg heap ptr with pix := (heapImg heap ptr).pix.set i px } := by
  simp [heapImg, heapSetPix, List.getD_eq_getElem?_getD, List.getElem?_set_self', h]

/-- `heapSetPix` preserves the number of live buffers. -/
theorem length_heapSetPix (heap : List GoImage) (ptr i : Nat) (px : Pixel) :
    (heapSetPix heap ptr i px).length = heap.length := by
  simp [heapSetPix]

/-- Allocation leaves every existing pointer's dereference unchanged
(pointers past the end dereference to the default in both heaps). -/
theorem heapImg_append_ne {heap : List GoImage} {b : GoImage} {q : Nat}
    (hne : q ≠ heap.length) :
    heapImg (heap ++ [b]) q = heapImg heap q := by
  rcases Nat.lt_or_ge q heap.length with hlt | hge
  · simp [heapImg, List.getD_eq_getElem?_getD, List.getElem?_append_left hlt]
  · have e1 : (heap ++ [b])[q]? = none :=
      List.getElem?_eq_none (by simp [List.length_append]; omega)
    have e2 : heap[q]? = none := List.getElem?_eq_none (by omega)
    simp [heapImg, List.getD_eq_getElem?_getD, e1, e2]

/-- Dereferencing the freshly allocated pointer yields the new buffer. -/
theorem heapImg_append_self (heap : List GoImage) (b : GoImage) :
    heapImg (heap ++ [b]) heap.length = b := by
  simp [heapImg, List.getD_eq_getElem?_getD, List.getElem?_append_right (Nat.le_refl _)]

/-- A write loop targeting one pointer leaves all other pointers unchanged. -/
theorem fold_heap_other {dst : Nat} (g : List GoImage → Nat → Pixel)
    (l : List Nat) :
    ∀ (hh : List GoImage) (q : Nat), q ≠ dst →
      heapImg (l.foldl (fun h2 i => heapSetPix h2 dst i (g h2 i)) hh) q
        = heapImg hh q := by
  induction l with
  | nil => intro hh q _; rfl
  | cons x xs ih =>
    intro hh q hne
    rw [List.foldl_cons, ih _ q hne, heapImg_set_ne hne]

/-- A write loop preserves the heap size. -/
theorem fold_heap_length {dst : Nat} (g : List GoImage → Nat → Pixel)
    (l : List Nat) :
    ∀ hh : List GoImage,
      (l.foldl (fun h2 i => heapSetPix h2 dst i (g h2 i)) hh).length = hh.length := by
  induction l with
  | nil => intro hh; rfl
  | cons x xs ih =>
    intro hh
    rw [List.foldl_cons, ih, length_heapSetPix]

/-- A write loop whose reads go through a pointer it never writes reads a
constant buffer, so it equals the loop over that snapshot. -/
theorem fold_heap_pure {src dst : Nat} (hne : src ≠ dst) (img : GoImage)
    (f : GoImage → Nat → Pixel) (l : List Nat) :
    ∀ hh : List GoImage, heapImg hh src = img →
      l.foldl (fun h2 i => heapSetPix h2 dst i (f (heapImg h2 src) i)) hh
        = l.foldl (fun h2 i => heapSetPix h2 dst i (f img i)) hh := by
  induction l with
  | nil => intro hh _; rfl
  | cons x xs ih =>
    intro hh hinv
    rw [List.foldl_cons, List.foldl_cons, hinv]
    exact ih _ (by rw [heapImg_set_ne (Ne.symm (fun hs => hne hs.symm)), hinv])

/-- The buffer a write loop fills, described by a pure fold on its pixels. -/
theorem fold_heap_dst (dst : Nat) (f : Nat → Pixel) (l : List Nat) :
    ∀ hh : List GoImage, dst < hh.length →
      heapImg (l.foldl (fun h2 i => heapSetPix h2 dst i (f i)) hh) dst
        = { heapImg hh dst with
            pix := l.foldl (fun b i => b.set i (f i)) (heapImg hh dst).pix } := by
  induction l with
  | nil => intro hh _; rfl
  | cons x xs ih =>
    intro hh hlen
    rw [List.foldl_cons, List.foldl_cons,
      ih _ (by rw [length_heapSetPix]; exact hlen), heapImg_set_self hlen]

/-- Setting an index just past a prefix writes into the suffix. -/
theorem set_append_len {α : Type} (l1 l2 : List α) (a : α) :
    (l1 ++ l2).set l1.length a = l1 ++ l2.set 0 a := by
  induction l1 with
  | nil => simp
  | cons x xs ih => simp [List.set, ih]

/-- Variant of `set_append_len` keyed by an abstract index. -/
theorem set_append_len2 {α : Type} {l1 : List α} {n : Nat} (h : l1.length = n)
    (l2 : List α) (a : α) :
    (l1 ++ l2).set n a = l1 ++ l2.set 0 a := by
  rw [← h]
  exact set_append_len l1 l2 a

/-- An in-order write loop over a buffer of the right size produces the
mapped range. -/
theorem fold_set_eq_map (f : Nat → Pixel) :
    ∀ (n : Nat) (b : List Pixel), n ≤ b.length →
      (List.range n).foldl (fun b2 i => b2.set i (f i)) b
        = (List.range n).map f ++ b.drop n := by
  intro n
  induction n with
  | zero => intro b _; simp
  | succ m ih =>
    intro b hb
    rw [List.range_succ, List.foldl_append, List.map_append, ih b (by omega)]
    have hlen : ((List.range m).map f).length = m := by simp
    have hdrop : b.drop m = b[m] :: b.drop (m + 1) :=
      List.drop_eq_getElem_cons (by omega)
    rw [List.foldl_cons, List.foldl_nil, hdrop, set_append_len2 hlen]
    simp only [List.append_assoc, List.map_cons, List.map_nil]
    rfl

/-- Allocate-then-fill: the common shape of both heap-level transforms.
The loop writes only the fresh buffer, reads only the source buffer, and
fills the fresh buffer with the mapped range. -/
theorem heap_fill_spec (heap : List GoImage) (src : Nat) (hsrc : src < heap.length)
    (f : GoImage → Nat → Pixel) (B0 : GoImage) (n : Nat) (hB : B0.pix.length = n) :
    ((List.range n).foldl
        (fun hh i => heapSetPix hh heap.length i (f (heapImg hh src) i))
        (heap ++ [B0])).length = heap.length + 1
    ∧ (∀ q, q ≠ heap.length →
        heapImg ((List.range n).foldl
          (fun hh i => heapSetPix hh heap.length i (f (heapImg hh src) i))
          (heap ++ [B0])) q = heapImg heap q)
    ∧ heapImg ((List.range n).foldl
        (fun hh i => heapSetPix hh heap.length i (f (heapImg hh src) i))
        (heap ++ [B0])) heap.length
      = { B0 with pix := (List.range n).map (f (heapImg heap src)) } := by
  have hne : src ≠ heap.length := Nat.ne_of_lt hsrc
  have h0 : heapImg (heap ++ [B0]) src = heapImg heap src := heapImg_append_ne hne
  have hpure := fold_heap_pure hne (heapImg heap src) f (List.range n)
    (heap ++ [B0]) h0
  refine ⟨?_, ?_, ?_⟩
  · rw [fold_heap_length]
    simp
  · intro q hq
    rw [fold_heap_other _ _ _ q hq, heapImg_append_ne hq]
  · rw [hpure, fold_heap_dst _ _ _ _ (by simp), heapImg_append_self]
    rw [fold_set_eq_map _ n _ (by rw [hB]), ← hB, List.drop_length,
      List.append_nil]

/-- Heap-level grayscale: returns a fresh pointer, changes no other
buffer, and the fresh buffer holds exactly the functional `toGrayscale`
of the source buffer. -/
theorem toGrayscaleH_spec (heap : List GoImage) (src : Nat) (h : src < heap.length) :
    (toGrayscaleH heap src).2 = heap.length
    ∧ (toGrayscaleH heap src).1.length = heap.length + 1
    ∧ (∀ q, q ≠ heap.length → heapImg (toGrayscaleH heap src).1 q = heapImg heap q)
    ∧ heapImg (toGrayscaleH heap src).1 heap.length
      = toGrayscale (heapImg heap src) := by
  have hs := heap_fill_spec heap src h
    (fun im i => grayPix (imgAt im (coordX (heapImg heap src) i)
      (coordY (heapImg heap src) i)))
    ⟨(heapImg heap src).minX, (heapImg heap src).minY, (heapImg heap src).w,
      (heapImg heap src).h,
      List.replicate ((heapImg heap src).w * (heapImg heap src).h) zeroPix⟩
    ((heapImg heap src).w * (heapImg heap src).h) (by simp)
  exact ⟨rfl, hs.1, hs.2.1, hs.2.2⟩

/-- Heap-level sepia, exactly as `toGrayscaleH_spec`. -/
theorem toSepiaH_spec (heap : List GoImage) (src : Nat) (h : src < heap.length) :
    (toSepiaH heap src).2 = heap.length
    ∧ (toSepiaH heap src).1.length = heap.length + 1
    ∧ (∀ q, q ≠ heap.length → heapImg (toSepiaH heap src).1 q = heapImg heap q)
    ∧ heapImg (toSepiaH heap src).1 heap.length
      = toSepia (heapImg heap src) := by
  have hs := heap_fill_spec heap src h
    (fun im i => sepiaPix (imgAt im (coordX (heapImg heap src) i)
      (coordY (heapImg heap src) i)))
    ⟨(heapImg heap src).minX, (heapImg heap src).minY, (heapImg heap src).w,
      (heapImg heap src).h,
      List.replicate ((heapImg heap src).w * (heapImg heap src).h) zeroPix⟩
    ((heapImg heap src).w * (heapImg heap src).h) (by simp)
  exact ⟨rfl, hs.1, hs.2.1, hs.2.2⟩

/-- On well-formed (non-nil) payloads — the only payloads the load stage
ever forwards — the transform worker forwards every task, transformed,
and produces no failure of any kind. -/
theorem processWorkerGo_total (ts : List GTask)
    (h : ∀ t ∈ ts, t.Img.isSome = true) :
    processWorkerGo ts = Except.ok (ts.map fun t =>
      { t with Img := t.Img.map fun i => toSepia (toGrayscale i) }) := by
  induction ts with
  | nil => rfl
  | cons t rest ih =>
    obtain ⟨img, himg⟩ := Option.isSome_iff_exists.mp (h t (List.mem_cons_self t rest))
    rw [List.map_cons]
    simp only [processWorkerGo, himg, toGrayscaleGo, toSepiaGo,
      ih fun t2 ht2 => h t2 (List.mem_cons_of_mem _ ht2)]
    simp [Option.map_some']

/-- The load stage forwards exactly the loadable paths, in order, each
with its decoded payload. -/
theorem loadWorkerGo_tasks (env : PipeEnv) (paths : List String) :
    (loadWorkerGo env paths).1
      = paths.filterMap fun q => (loadFile env q).map
          fun img => (⟨q, img⟩ : ImageTask) := by
  induction paths with
  | nil => rfl
  | cons p rest ih =>
    simp only [loadWorkerGo, List.filterMap_cons]
    by_cases ho : env.openOk p = true
    · cases hd : env.decodeRes p with
      | none =>
        have hlf : loadFile env p = none := by simp [loadFile, ho, hd]
        simp [ho, hd, hlf, ih]
      | some img =>
        have hlf : loadFile env p = some img := by simp [loadFile, ho, hd]
        simp [ho, hd, hlf, ih]
    · simp only [Bool.not_eq_true] at ho
      have hlf : loadFile env p = none := by simp [loadFile, ho]
      simp [ho, hlf, ih]

/-- A failing path produces exactly one failure log line (for the open or
for the decode error) and leaves the forwarded tasks unchanged. -/
theorem loadWorkerGo_fail_head (env : PipeEnv) (p : String) (rest : List String)
    (h : loadFile env p = none) :
    (loadWorkerGo env (p :: rest)).1 = (loadWorkerGo env rest).1
    ∧ ((loadWorkerGo env (p :: rest)).2
        = .openErrLine p :: (loadWorkerGo env rest).2
      ∨ (loadWorkerGo env (p :: rest)).2
        = .decodeErrLine p :: (loadWorkerGo env rest).2) := by
  by_cases ho : env.openOk p = true
  · have hd : env.decodeRes p = none := by simpa [loadFile, ho] using h
    exact ⟨by simp [loadWorkerGo, ho, hd], Or.inr (by simp [loadWorkerGo, ho, hd])⟩
  · simp only [Bool.not_eq_true] at ho
    exact ⟨by simp [loadWorkerGo, ho], Or.inl (by simp [loadWorkerGo, ho])⟩

/-- Every task the parallel save stage receives yields exactly one
outcome: a written file or a log line. -/
theorem saveWorkerGo_partition (env : SaveEnv) (ts : List ImageTask) :
    (saveWorkerGo env ts).1.length + (saveWorkerGo env ts).2.length
      = ts.length := by
  induction ts with
  | nil => rfl
  | cons t rest ih =>
    simp only [saveWorkerGo]
    by_cases hc : env.createOk (parOut t.FilePath) = true
    · cases he : env.encodeE t.Img with
      | error e => simp only [hc, Bool.true_eq_false, if_false, he,
          List.length_cons]; omega
      | ok bs => simp only [hc, Bool.true_eq_false, if_false, he,
          List.length_cons]; omega
    · simp only [Bool.not_eq_true] at hc
      simp only [hc, if_true, List.length_cons]
      omega

/-- The pipeline semantics on the empty path list with one worker reaches
the terminal state `emptyFinal` (close input, loader exits, close tasks,
the worker exits, close results, saver exits, orchestrator returns). -/
theorem reach_emptyFinal : Reach envW (initState [] 1) emptyFinal := by
  have r1 := Reach.tail (@Reach.refl envW (initState [] 1))
    (@Step.mainCloseFiles envW (initState [] 1) rfl)
  have r2 := Reach.tail r1 (Step.loadExit _ rfl rfl rfl)
  have r3 := Reach.tail r2 (Step.mainCloseTasks _ rfl rfl)
  have r4 := Reach.tail r3 (Step.workExit _ (by decide) rfl rfl)
  have r5 := Reach.tail r4 (Step.mainCloseResults _ rfl (by decide))
  have r6 := Reach.tail r5 (Step.saveExit _ rfl rfl rfl)
  have r7 := Reach.tail r6 (Step.mainFinish _ rfl rfl)
  convert r7 using 1

/-- C1: the parallel pipeline's shutdown follows the strict drain
ordering — the input (`filesChan`) queue is closed only after all paths
have been enqueued (once it is closed no path remains to push), the
transform queue is closed only after the load stage has finished, the
save queue is closed only after every one of the `nW` transform workers
has exited its consume loop (joined), and the save stage's completion is
awaited before the run finishes (`mainPC = done` implies the saver is
done); consequently no reachable state has a send pending on a closed
queue, every non-terminal reachable state can take a step (no deadlock),
and every run from the initial state has at most `6*|paths| + nW + 6`
steps, so the run terminates for every finite input list. -/
theorem C1_drain_order_no_fault_terminates
    (paths : List String) (nW : Nat) (env : PipeEnv) (hW : 1 ≤ nW) :
    (∀ s, Reach env (initState paths nW) s →
      (s.files.closed = true → (restList s.mainPC).length = 0)
      ∧ (s.tasks.closed = true → s.loader = .done)
      ∧ (s.results.closed = true → ∀ w ∈ s.workers, w = .done)
      ∧ (s.mainPC = .done → s.saver = .done)
      ∧ ¬ SendFault s
      ∧ (s.mainPC ≠ .done → ∃ s', Step env s s'))
    ∧ (∀ n s, ReachN env (initState paths nW) n s →
        n ≤ 6 * paths.length + nW + 6) := by
  constructor
  · intro s hr
    have I := reach_inv hr
    refine ⟨?_, I.ldone, I.wdone, I.sdone, inv_no_fault I,
      fun hnd => inv_progress I hW hnd⟩
    intro hfc
    cases hm : s.mainPC with
    | sending rest =>
      have h1 := I.fclosed.mp hfc
      rw [hm] at h1
      simp [mainStage] at h1
    | waitLoad => simp [restList]
    | waitProcess => simp [restList]
    | waitSave => simp [restList]
    | done => simp [restList]
  · intro n s h
    have h1 := reachN_measure h
    rw [measure_init] at h1
    omega

/-- Witness for C1: a concrete one-path input with one worker. -/
theorem C1_drain_order_no_fault_terminates_witness :
    (∀ s, Reach envW (initState ["input_images/a.jpg"] 1) s →
      (s.files.closed = true → (restList s.mainPC).length = 0)
      ∧ (s.tasks.closed = true → s.loader = .done)
      ∧ (s.results.closed = true → ∀ w ∈ s.workers, w = .done)
      ∧ (s.mainPC = .done → s.saver = .done)
      ∧ ¬ SendFault s
      ∧ (s.mainPC ≠ .done → ∃ s', Step envW s s'))
    ∧ (∀ n s, ReachN envW (initState ["input_images/a.jpg"] 1) n s →
        n ≤ 6 * (["input_images/a.jpg"] : List String).length + 1 + 6) :=
  C1_drain_order_no_fault_terminates ["input_images/a.jpg"] 1 envW (by decide)

/-- C8: the modelled `main` exits with code 0 on normal completion, for
every file-system behaviour (so even if individual files fail to open,
decode, or save), and exits with code 1 (`log.Fatal`) exactly when the
input enumeration (`filepath.Glob`) itself fails before any stage
starts. -/
theorem C8_exit_code (numCPU : Nat) (env : PipeEnv)
    (globRes : Except String (List String)) :
    ((mainRun numCPU env globRes).1 = 0 ↔ ∃ paths, globRes = .ok paths)
    ∧ ((mainRun numCPU env globRes).1 ≠ 0 ↔ ∃ e, globRes = .error e) := by
  cases globRes with
  | error e => simp [mainRun]
  | ok paths => simp [mainRun]

/-- C9: the three queues are constructed with fixed capacities that no
step of any run ever changes: the input queue holds `len(filePaths)`
entries, and the transform-input and save-input queues hold `numWorkers`
entries each. -/
theorem C9_queue_capacities {paths : List String} {nW : Nat} {env : PipeEnv}
    {s : PipeState} (h : Reach env (initState paths nW) s) :
    s.files.cap = paths.length ∧ s.tasks.cap = nW ∧ s.results.cap = nW := by
  have I := reach_inv h
  exact ⟨I.capF, I.capT, I.capR⟩

/-- Witness for C9 at the (reachable) initial state of a two-path,
three-worker run. -/
theorem C9_queue_capacities_witness :
    (initState ["input_images/a.jpg", "input_images/b.jpg"] 3).files.cap
        = (["input_images/a.jpg", "input_images/b.jpg"] : List String).length
    ∧ (initState ["input_images/a.jpg", "input_images/b.jpg"] 3).tasks.cap = 3
    ∧ (initState ["input_images/a.jpg", "input_images/b.jpg"] 3).results.cap = 3 :=
  C9_queue_capacities
    (@Reach.refl envW (initState ["input_images/a.jpg", "input_images/b.jpg"] 3))

/-- C10: inside the bounds of the image returned by `toGrayscale`, every
pixel has equal red, green and blue channels (truly achromatic), the
pixel is exactly `grayPix` of the corresponding input pixel, and it
depends only on that corresponding input pixel: two inputs agreeing at
`(x, y)` produce the same grayscale pixel at `(x, y)`. -/
theorem C10_grayscale_achromatic (img : GoImage) (x y : Int)
    (h : inBounds img x y) :
    ((imgAt (toGrayscale img) x y).r = (imgAt (toGrayscale img) x y).g
      ∧ (imgAt (toGrayscale img) x y).g = (imgAt (toGrayscale img) x y).b)
    ∧ imgAt (toGrayscale img) x y = grayPix (imgAt img x y)
    ∧ (∀ img2 : GoImage, inBounds img2 x y →
        imgAt img2 x y = imgAt img x y →
        imgAt (toGrayscale img2) x y = imgAt (toGrayscale img) x y) := by
  refine ⟨?_, imgAt_toGrayscale h, ?_⟩
  · rw [imgAt_toGrayscale h]
    exact ⟨rfl, rfl⟩
  · intro img2 h2 heq
    rw [imgAt_toGrayscale h, imgAt_toGrayscale h2, heq]

/-- Witness for C10 on a concrete 1x1 image. -/
theorem C10_grayscale_achromatic_witness :
    inBounds oneImg 0 0
    ∧ (((imgAt (toGrayscale oneImg) 0 0).r = (imgAt (toGrayscale oneImg) 0 0).g
        ∧ (imgAt (toGrayscale oneImg) 0 0).g = (imgAt (toGrayscale oneImg) 0 0).b)
      ∧ imgAt (toGrayscale oneImg) 0 0 = grayPix (imgAt oneImg 0 0)
      ∧ (∀ img2 : GoImage, inBounds img2 0 0 →
          imgAt img2 0 0 = imgAt oneImg 0 0 →
          imgAt (toGrayscale img2) 0 0 = imgAt (toGrayscale oneImg) 0 0)) :=
  ⟨by decide, C10_grayscale_achromatic oneImg 0 0 (by decide)⟩

/-- C2: with every write succeeding, any terminal state of the parallel
pipeline — for any worker count, including `numWorkers = 1` — has saved
exactly the files the sequential runner saves: the same source paths with
byte-identical encoded contents (the worker count appears nowhere on the
right-hand side, so it never affects which bytes are produced).  The
second conjunct pins the common value down: one entry per successfully
decoded path, whose bytes are the encoding of the grayscale-then-sepia
transform of its decoded image. -/
theorem C2_parallel_seq_byte_identical
    (paths : List String) (nW : Nat) (env : PipeEnv) (hW : 1 ≤ nW)
    (hcr : ∀ x, env.createOk x = true)
    (s : PipeState) (hr : Reach env (initState paths nW) s)
    (hf : s.mainPC = .done) :
    (↑s.saved : Multiset (String × List Nat))
        = ↑(runSequentialGo env paths).saved
    ∧ (runSequentialGo env paths).saved
        = (paths.filter fun p => (loadFile env p).isSome).map
            fun p => (p, outBytes env p) :=
  ⟨pipeline_saved_eq_seq (reach_inv hr) hW hcr hf, seq_saved_char env hcr paths⟩

/-- Witness for C2: the concrete terminal run `reach_emptyFinal` with
`numWorkers` forced to 1. -/
theorem C2_parallel_seq_byte_identical_witness :
    ((↑emptyFinal.saved : Multiset (String × List Nat))
        = ↑(runSequentialGo envW []).saved
      ∧ (runSequentialGo envW []).saved
        = (([] : List String).filter fun p => (loadFile envW p).isSome).map
            fun p => (p, outBytes envW p)) :=
  C2_parallel_seq_byte_identical [] 1 envW (by decide) (fun _ => rfl)
    emptyFinal reach_emptyFinal rfl

/-- C3 counterexample: the program never reports succeeded/failed totals.
On a one-file input whose decode fails, the true succeeded total of both
runners is 0, but the only numbers the program prints are the CPU count
(4), the discovered count (1) and the worker count (4): no printed number
equals the succeeded total, so the final summary cannot be reporting
succeeded (or failed) counts. -/
theorem C3_cex_no_success_count :
    printedNumbers (mainRun 4 envW (Except.ok ["input_images/a.jpg"])).2
        = [4, 1, 4]
    ∧ (runSequentialGo envW ["input_images/a.jpg"]).saved.length = 0
    ∧ (runParallelDet envW ["input_images/a.jpg"]).saved.length = 0
    ∧ (0 : Nat) ∉
        printedNumbers (mainRun 4 envW (Except.ok ["input_images/a.jpg"])).2 := by
  refine ⟨rfl, rfl, rfl, ?_⟩
  decide

/-- C3 amended: the final output reports the discovered count (and only
that count); and every discovered path receives exactly one terminal
outcome — success or logged failure, never both, never neither — in both
runners, so the induced counts satisfy succeeded + failed = discovered:
for the sequential runner as an equation on its run, and for the parallel
pipeline in every terminal state of every schedule. -/
theorem C3_amended_partition (paths : List String) (nW : Nat) (env : PipeEnv)
    (cpu : Nat) (hW : 1 ≤ nW) :
    OutLine.foundLine paths.length ∈ (mainRun cpu env (Except.ok paths)).2
    ∧ (runSequentialGo env paths).saved.length
        + (runSequentialGo env paths).failures.length = paths.length
    ∧ (↑((runSequentialGo env paths).saved.map Prod.fst)
        + ↑(runSequentialGo env paths).failures : Multiset String) = ↑paths
    ∧ (∀ s, Reach env (initState paths nW) s → s.mainPC = .done →
        s.saved.length + s.failures.length = paths.length
        ∧ (↑(s.saved.map Prod.fst) + ↑s.failures : Multiset String) = ↑paths) := by
  refine ⟨?_, ?_, seq_partition env paths, ?_⟩
  · simp [mainRun]
  · have h := congrArg Multiset.card (seq_partition env paths)
    simpa [Multiset.coe_card] using h
  · intro s hr hf
    exact ⟨final_counts (reach_inv hr) hW hf, final_acct (reach_inv hr) hW hf⟩

/-- Witness for the amended C3 on a concrete empty input. -/
theorem C3_amended_partition_witness :
    OutLine.foundLine ([] : List String).length
        ∈ (mainRun 2 envW (Except.ok [])).2
    ∧ (runSequentialGo envW []).saved.length
        + (runSequentialGo envW []).failures.length = ([] : List String).length
    ∧ (↑((runSequentialGo envW []).saved.map Prod.fst)
        + ↑(runSequentialGo envW []).failures : Multiset String)
        = ↑([] : List String)
    ∧ (∀ s, Reach envW (initState [] 1) s → s.mainPC = .done →
        s.saved.length + s.failures.length = ([] : List String).length
        ∧ (↑(s.saved.map Prod.fst) + ↑s.failures : Multiset String)
            = ↑([] : List String)) :=
  C3_amended_partition [] 1 envW 2 (by decide)

/-- C4: the heap-level transform step of `processWorker` applies
grayscale first and sepia second (it literally is that composition), each
transform returns a freshly allocated buffer (a pointer distinct from its
input, and from each other), neither transform mutates its input buffer
in place (the source buffer — and, for the composite, the intermediate
grayscale buffer's own source — dereference unchanged afterwards), and
the final buffer holds exactly `toSepia (toGrayscale input)`. -/
theorem C4_transform_order_and_purity (heap : List GoImage) (src : Nat)
    (h : src < heap.length) :
    processItemH heap src
        = toSepiaH (toGrayscaleH heap src).1 (toGrayscaleH heap src).2
    ∧ heapImg (toGrayscaleH heap src).1 src = heapImg heap src
    ∧ heapImg (processItemH heap src).1 src = heapImg heap src
    ∧ (toGrayscaleH heap src).2 ≠ src
    ∧ (processItemH heap src).2 ≠ src
    ∧ (processItemH heap src).2 ≠ (toGrayscaleH heap src).2
    ∧ heapImg (toGrayscaleH heap src).1 (toGrayscaleH heap src).2
        = toGrayscale (heapImg heap src)
    ∧ heapImg (processItemH heap src).1 (processItemH heap src).2
        = toSepia (toGrayscale (heapImg heap src)) := by
  obtain ⟨hg2, hglen, hgpres, hgval⟩ := toGrayscaleH_spec heap src h
  have hglt : (toGrayscaleH heap src).2 < (toGrayscaleH heap src).1.length := by
    rw [hg2, hglen]
    omega
  obtain ⟨hs2, hslen, hspres, hsval⟩ :=
    toSepiaH_spec (toGrayscaleH heap src).1 (toGrayscaleH heap src).2 hglt
  have hsrc_ne : src ≠ heap.length := Nat.ne_of_lt h
  have hPI : processItemH heap src
      = toSepiaH (toGrayscaleH heap src).1 (toGrayscaleH heap src).2 := rfl
  refine ⟨hPI, hgpres src hsrc_ne, ?_, ?_, ?_, ?_, hgval, ?_⟩
  · rw [hPI, hspres src (by rw [hglen]; omega), hgpres src hsrc_ne]
  · rw [hg2]
    exact hsrc_ne.symm
  · rw [hPI, hs2, hglen]
    omega
  · rw [hPI, hs2, hglen, hg2]
    omega
  · rw [hPI, hs2, hsval, hg2, hgval]

/-- Witness for C4 on a concrete one-buffer heap. -/
theorem C4_transform_order_and_purity_witness :
    processItemH [oneImg] 0
        = toSepiaH (toGrayscaleH [oneImg] 0).1 (toGrayscaleH [oneImg] 0).2
    ∧ heapImg (toGrayscaleH [oneImg] 0).1 0 = heapImg [oneImg] 0
    ∧ heapImg (processItemH [oneImg] 0).1 0 = heapImg [oneImg] 0
    ∧ (toGrayscaleH [oneImg] 0).2 ≠ 0
    ∧ (processItemH [oneImg] 0).2 ≠ 0
    ∧ (processItemH [oneImg] 0).2 ≠ (toGrayscaleH [oneImg] 0).2
    ∧ heapImg (toGrayscaleH [oneImg] 0).1 (toGrayscaleH [oneImg] 0).2
        = toGrayscale (heapImg [oneImg] 0)
    ∧ heapImg (processItemH [oneImg] 0).1 (processItemH [oneImg] 0).2
        = toSepia (toGrayscale (heapImg [oneImg] 0)) :=
  C4_transform_order_and_purity [oneImg] 0 (by decide)

/-- C5 counterexample: `processWorker` has no per-item failure path.  On
a malformed (nil) payload followed by a well-formed one, the first
transform panics and the panic terminates the whole consume loop (and in
Go the whole process): the bad item is not dropped with a failure record,
and the subsequent good item is never processed — contradicting the
claimed per-item, never-pool-fatal recovery. -/
theorem C5_cex_panic_kills_pool :
    processWorkerGo [⟨"input_images/bad.jpg", none⟩,
        ⟨"input_images/good.jpg", some oneImg⟩]
      = Except.error GoPanic.nilDeref := rfl

/-- C5 amended: the transform worker has no error branch: every received
task with a well-formed (non-nil) decoded payload — and the load stage
forwards only such tasks — is transformed (grayscale then sepia) and
forwarded; no item is ever dropped and no failure record exists in this
stage, while a genuinely malformed (nil) buffer panics the entire pool
rather than being dropped per-item. -/
theorem C5_amended_worker_has_no_failure_path (ts : List GTask)
    (h : ∀ t ∈ ts, t.Img.isSome = true) :
    processWorkerGo ts = Except.ok (ts.map fun t =>
      { t with Img := t.Img.map fun i => toSepia (toGrayscale i) }) :=
  processWorkerGo_total ts h

/-- Witness for the amended C5 on a concrete well-formed task list. -/
theorem C5_amended_worker_has_no_failure_path_witness :
    processWorkerGo [⟨"input_images/a.jpg", some oneImg⟩]
      = Except.ok (([⟨"input_images/a.jpg", some oneImg⟩] : List GTask).map
          fun t => { t with Img := t.Img.map fun i => toSepia (toGrayscale i) }) :=
  C5_amended_worker_has_no_failure_path [⟨"input_images/a.jpg", some oneImg⟩]
    (by decide)

/-- C6: for a path whose open or decode fails, the load stage emits a
failure record (the open-error or decode-error log line) for that path,
forwards no payload downstream, and continues with the remaining paths;
in general the load stage forwards exactly the loadable paths with their
decoded payloads, so a single undecodable file never halts the stage. -/
theorem C6_load_failure_contained (env : PipeEnv) (p : String)
    (paths : List String) (h : loadFile env p = none) :
    (loadWorkerGo env (p :: paths)).1 = (loadWorkerGo env paths).1
    ∧ ((loadWorkerGo env (p :: paths)).2
          = .openErrLine p :: (loadWorkerGo env paths).2
        ∨ (loadWorkerGo env (p :: paths)).2
          = .decodeErrLine p :: (loadWorkerGo env paths).2)
    ∧ (∀ qs : List String, (loadWorkerGo env qs).1
        = qs.filterMap fun q => (loadFile env q).map
            fun img => (⟨q, img⟩ : ImageTask)) := by
  obtain ⟨h1, h2⟩ := loadWorkerGo_fail_head env p paths h
  exact ⟨h1, h2, loadWorkerGo_tasks env⟩

/-- Witness for C6 on a concrete undecodable path. -/
theorem C6_load_failure_contained_witness :
    (loadWorkerGo envW ["input_images/a.jpg", "input_images/b.jpg"]).1
        = (loadWorkerGo envW ["input_images/b.jpg"]).1
    ∧ ((loadWorkerGo envW ["input_images/a.jpg", "input_images/b.jpg"]).2
          = .openErrLine "input_images/a.jpg"
              :: (loadWorkerGo envW ["input_images/b.jpg"]).2
        ∨ (loadWorkerGo envW ["input_images/a.jpg", "input_images/b.jpg"]).2
          = .decodeErrLine "input_images/a.jpg"
              :: (loadWorkerGo envW ["input_images/b.jpg"]).2)
    ∧ (∀ qs : List String, (loadWorkerGo envW qs).1
        = qs.filterMap fun q => (loadFile envW q).map
            fun img => (⟨q, img⟩ : ImageTask)) :=
  C6_load_failure_contained envW "input_images/a.jpg" ["input_images/b.jpg"] rfl

/-- C7 counterexample: with `os.Create` succeeding and `jpeg.Encode`
failing on one concrete item, the parallel save stage logs an
encode-error line but the sequential runner logs nothing (line 184 of
the source discards the return value of `jpeg.Encode`): an encode
failure is not recorded in the sequential runner, and the two runners do
not handle it identically. -/
theorem C7_cex_encode_failure_not_logged_sequentially :
    envE.encodeE t0.Img = Except.error "encode failed"
    ∧ (saveWorkerGo envE [t0]).2
        = [OutLine.encodeErrLine "output_parallel/a.jpg"]
    ∧ (seqSaveGo envE [t0]).2 = []
    ∧ (saveWorkerGo envE [t0]).2 ≠ (seqSaveGo envE [t0]).2 := by
  refine ⟨rfl, by decide, by decide, by decide⟩

/-- C7 amended: a create failure is logged and skipped by both runners
identically (log-and-continue); an encode failure stops neither runner
and processing continues with the next item in both, but only the
parallel save stage logs it — the sequential runner silently discards
the encode error; and in the parallel save stage every received item
yields exactly one outcome (a written file or a single log line). -/
theorem C7_amended_save_failure_handling (env : SaveEnv) (t : ImageTask)
    (rest : List ImageTask) :
    (env.createOk (parOut t.FilePath) = false →
      saveWorkerGo env (t :: rest)
        = ((saveWorkerGo env rest).1,
            .createErrLine (parOut t.FilePath) :: (saveWorkerGo env rest).2))
    ∧ (env.createOk (seqOut t.FilePath) = false →
      seqSaveGo env (t :: rest)
        = ((seqSaveGo env rest).1,
            .createErrLine (seqOut t.FilePath) :: (seqSaveGo env rest).2))
    ∧ (∀ e, env.createOk (parOut t.FilePath) = true →
        env.encodeE t.Img = .error e →
      saveWorkerGo env (t :: rest)
        = ((saveWorkerGo env rest).1,
            .encodeErrLine (parOut t.FilePath) :: (saveWorkerGo env rest).2))
    ∧ (∀ e, env.createOk (seqOut t.FilePath) = true →
        env.encodeE t.Img = .error e →
      seqSaveGo env (t :: rest) = seqSaveGo env rest)
    ∧ (saveWorkerGo env (t :: rest)).1.length
        + (saveWorkerGo env (t :: rest)).2.length = rest.length + 1 := by
  refine ⟨?_, ?_, ?_, ?_, ?_⟩
  · intro hc
    simp [saveWorkerGo, hc]
  · intro hc
    simp [seqSaveGo, hc]
  · intro e hc he
    simp [saveWorkerGo, hc, he]
  · intro e hc he
    simp [seqSaveGo, hc, he]
  · have h := saveWorkerGo_partition env (t :: rest)
    simpa using h
